import Mathlib

/-!
# Verification of gen-reloc: ELF → PE base-relocation generator

A shallow embedding of `gen-reloc.py`, which reads absolute relocations from a
64-bit little-endian ELF image, scans its `.data` section for additional
image-internal pointers, builds a PE base-relocation (`.reloc`) table, and
patches a PE32+ image with it.

Byte buffers are modelled as `List Nat` (each element one byte value).
Machine integers are `Nat` with explicit `% 2^w` where the source packs
fixed-width fields.  Fallible code returns `Except String`.
-/

set_option maxRecDepth 40000

/-! ## Format constants (from the top of gen-reloc.py) -/

def IMAGE_REL_BASED_DIR64 : Nat := 0xA

def IMAGE_REL_BASED_ABSOLUTE : Nat := 0x0

def PE_FILE_ALIGNMENT : Nat := 0x200

def PE_SECTION_ALIGNMENT : Nat := 0x1000

/-! ## Byte-level utilities

`u16le`/`u32le`/`u64le` model `struct.unpack_from("<H"/"<I"/"<Q", buf, off)`;
out-of-range bytes read as 0.  `bytesOfU16`/`bytesOfU32` model
`struct.pack("<H"/"<I", v)`: the little-endian bytes of `v % 2^16` / `v % 2^32`.
`setBytes` models byte-slice assignment `buf[off : off+len(data)] = data`.
-/

def u16le (bs : List Nat) (off : Nat) : Nat :=
  bs.getD off 0 + 256 * bs.getD (off + 1) 0

def u32le (bs : List Nat) (off : Nat) : Nat :=
  bs.getD off 0 + 256 * bs.getD (off + 1) 0 + 65536 * bs.getD (off + 2) 0 +
    16777216 * bs.getD (off + 3) 0

def u64le (bs : List Nat) (off : Nat) : Nat :=
  u32le bs off + 4294967296 * u32le bs (off + 4)

def bytesOfU16 (v : Nat) : List Nat := [v % 256, v / 256 % 256]

def bytesOfU32 (v : Nat) : List Nat :=
  [v % 256, v / 256 % 256, v / 65536 % 256, v / 16777216 % 256]

def setBytes (bs : List Nat) (off : Nat) (data : List Nat) : List Nat :=
  bs.take off ++ data ++ bs.drop (off + data.length)

def readBytes (bs : List Nat) (off n : Nat) : List Nat := (bs.drop off).take n

/-! ## Relocation Table Builder (`build_base_reloc_table`)

The source groups the RVAs by page (`rva & ~0xFFF`, i.e. low 12 bits cleared),
then for each page in ascending order emits a block: the page RVA and the block
byte size as `<II`, then one `<H` entry per intra-page offset (`rva & 0xFFF`)
in ascending order, each packing the DIR64 kind in the high nibble; while the
block byte length `8 + len(entry_data)` is not a multiple of 4 it appends a
2-byte no-op (`IMAGE_REL_BASED_ABSOLUTE`) entry — entries are 2 bytes each, so
the byte length is even and at most one padding entry is ever appended.
-/

def pageOf (rva : Nat) : Nat := rva / 4096 * 4096

def pageOff (rva : Nat) : Nat := rva % 4096

/-- The dict value `pages[page]`: intra-page offsets of the input RVAs that
fall on `page`, in input order (the builder sorts them before packing). -/
def pageOffsetsIn (offsets : List Nat) (page : Nat) : List Nat :=
  (offsets.filter (fun rva => pageOf rva = page)).map pageOff

/-- `sorted(pages)`: the distinct pages of the input RVAs in ascending order. -/
def relocPages (offsets : List Nat) : List Nat :=
  ((offsets.map pageOf).dedup).insertionSort (· ≤ ·)

/-- The `entry_data` bytes of one block: packed sorted entries plus the
no-op padding entry appended when `8 + len` is not a multiple of 4. -/
def relocBlockEntryData (offsets : List Nat) (page : Nat) : List Nat :=
  let entry_data := (((pageOffsetsIn offsets page).insertionSort (· ≤ ·)).map
      (fun off => bytesOfU16 ((IMAGE_REL_BASED_DIR64 <<< 12) ||| off))).flatten
  if (8 + entry_data.length) % 4 = 0 then entry_data
  else entry_data ++ bytesOfU16 IMAGE_REL_BASED_ABSOLUTE

/-- One full block: `pack("<II", page_rva, block_size)` followed by the
entry data, where `block_size = 8 + len(entry_data)`. -/
def relocBlockBytes (offsets : List Nat) (page : Nat) : List Nat :=
  bytesOfU32 page ++ bytesOfU32 (8 + (relocBlockEntryData offsets page).length) ++
    relocBlockEntryData offsets page

def build_base_reloc_table (offsets : List Nat) : List Nat :=
  (relocPages offsets).flatMap (relocBlockBytes offsets)

/-! ## Reference decoder for the produced table

Walks the block sequence; within each block it reads the 16-bit entries and,
ignoring the no-op padding entries (kind nibble `IMAGE_REL_BASED_ABSOLUTE`),
records the (page RVA, 12-bit intra-page offset) pair of every real entry.
Fuel bounds the recursion; `decodeReloc` supplies `bs.length`, ample since
every block is at least 8 bytes long.
-/

def decodeEntries : List Nat → List Nat
  | b0 :: b1 :: rest => (b0 + 256 * b1) :: decodeEntries rest
  | _ => []

def decodeBlocks : Nat → List Nat → List (Nat × Nat)
  | 0, _ => []
  | _, [] => []
  | fuel + 1, bs =>
    let page := u32le bs 0
    let bsize := u32le bs 4
    let ents := decodeEntries (readBytes bs 8 (bsize - 8))
    (ents.filterMap fun w =>
        if w / 4096 = IMAGE_REL_BASED_ABSOLUTE then none else some (page, w % 4096))
      ++ decodeBlocks fuel (bs.drop bsize)

def decodeReloc (bs : List Nat) : List (Nat × Nat) := decodeBlocks bs.length bs

/-- The sorted intra-page offset list of one block. -/
def sortedPageOffs (offsets : List Nat) (page : Nat) : List Nat :=
  (pageOffsetsIn offsets page).insertionSort (· ≤ ·)

/-- The 16-bit entry words one block carries: real DIR64 entries followed by
the optional no-op padding entry. -/
def blockWords (offsets : List Nat) (page : Nat) : List Nat :=
  let real := (sortedPageOffs offsets page).map
    (fun off => (IMAGE_REL_BASED_DIR64 <<< 12) ||| off)
  if (8 + 2 * real.length) % 4 = 0 then real
  else real ++ [IMAGE_REL_BASED_ABSOLUTE]

/-! ## ELF Section Reader (`parse_elf_sections`)

Section names are resolved through the section-header string table and decoded
to `String` byte-by-byte (the used names are all plain ASCII). -/

structure ElfSection where
  addr : Nat
  offset : Nat
  size : Nat
  shType : Nat
  entsize : Nat
  deriving DecidableEq, Repr

/-- `elf_data[pos:].takeWhile ≠ 0` decoded: the NUL-terminated name starting
at byte position `pos` (models `elf_data[pos : elf_data.index(0, pos)]`). -/
def readName (elf_data : List Nat) (pos : Nat) : String :=
  String.mk (((elf_data.drop pos).takeWhile (fun b => b ≠ 0)).map Char.ofNat)

def parse_elf_sections (elf_data : List Nat) : List (String × ElfSection) :=
  let e_shoff := u64le elf_data 40
  let e_shentsize := u16le elf_data 58
  let e_shnum := u16le elf_data 60
  let e_shstrndx := u16le elf_data 62
  let st_off := u64le elf_data (e_shoff + e_shstrndx * e_shentsize + 24)
  (List.range e_shnum).map fun i =>
    let base := e_shoff + i * e_shentsize
    (readName elf_data (st_off + u32le elf_data base),
     { addr := u64le elf_data (base + 16)
       offset := u64le elf_data (base + 24)
       size := u64le elf_data (base + 32)
       shType := u32le elf_data (base + 4)
       entsize := u64le elf_data (base + 56) })

/-! ## Relocation Discoverer: explicit records (`read_elf_reloc_offsets`) -/

/-- One `.rela.*` section's accepted `r_offset`s: for each 24-byte (or
`sh_entsize`-byte) record in `elf_data[offset : offset+size]`, accept the
record when the low 32 bits of `r_info` equal the absolute-relocation type 2
(`R_RISCV_64` = `R_LARCH_64` = 2). -/
def relaSectionOffsets (elf_data : List Nat) (sec : ElfSection) : List Nat :=
  let entsize := if sec.entsize = 0 then 24 else sec.entsize
  let raw := readBytes elf_data sec.offset sec.size
  (List.range ((raw.length + entsize - 1) / entsize)).filterMap fun k =>
    let r_offset := u64le raw (k * entsize)
    let r_info := u64le raw (k * entsize + 8)
    if r_info % 4294967296 = 2 then some r_offset else none

/-- Collect offsets needing base relocation from the `.rela.data` and
`.rela.rodata` sections (type `SHT_RELA` = 4); `.rela.text` is skipped.
Fails when `e_machine` is neither `EM_RISCV` (0xF3) nor `EM_LOONGARCH`
(0x102). -/
def read_elf_reloc_offsets (elf_data : List Nat) (sections : List (String × ElfSection)) :
    Except String (List Nat) :=
  let e_machine := u16le elf_data 18
  if e_machine = 0xF3 ∨ e_machine = 0x102 then
    Except.ok (sections.flatMap fun ns =>
      if ns.2.shType = 4 ∧ (ns.1 = ".rela.data" ∨ ns.1 = ".rela.rodata") then
        relaSectionOffsets elf_data ns.2
      else [])
  else Except.error "unsupported e_machine"

/-! ## Relocation Discoverer: heuristic pointer scan (`scan_data_for_pointers`) -/

/-- The fold over `sections.values()` computing the image address range:
`image_lo` is the least address of a section with `addr > 0 ∧ size > 0`
(`none` when there is no such section), `image_hi` the greatest end. -/
def imageRange (secs : List ElfSection) : Option Nat × Nat :=
  secs.foldl
    (fun lohi sec =>
      if sec.addr > 0 ∧ sec.size > 0 then
        (match lohi.1 with
         | none => some sec.addr
         | some lo => some (min lo sec.addr),
         max lohi.2 (sec.addr + sec.size))
      else lohi)
    (none, 0)

/-- Scan `.data` (only) in 8-byte steps: every 8-byte little-endian word that
falls inside the image address range is recorded as a pointer at RVA
`addr + i`.  The trailing `size % 8` bytes are never read
(`range(0, size & ~7, 8)`). -/
def scan_data_for_pointers (elf_data : List Nat) (sections : List (String × ElfSection)) :
    List Nat :=
  match sections.lookup ".data" with
  | none => []
  | some data_sec =>
    match imageRange (sections.map Prod.snd) with
    | (none, _) => []
    | (some image_lo, image_hi) =>
      (List.range (data_sec.size / 8)).filterMap fun k =>
        let val := u64le elf_data (data_sec.offset + 8 * k)
        if image_lo ≤ val ∧ val < image_hi then some (data_sec.addr + 8 * k) else none

/-! ## PE Patcher (`patch_pe`)

The header offsets below are the quantities the source computes once from the
unmodified buffer.  Section names are kept as byte lists: the source compares
the NUL-right-stripped 8 name bytes against `".reloc"`, which (under
`decode("ascii", errors="replace")`) coincides with comparing the stripped
bytes against the ASCII bytes of `".reloc"`. -/

structure PESection where
  name : List Nat
  header_off : Nat
  virtual_size : Nat
  virtual_address : Nat
  raw_size : Nat
  raw_offset : Nat
  deriving DecidableEq, Repr

/-- `bytes.rstrip(b"\x00")`: drop trailing zero bytes. -/
def rstrip0 (bs : List Nat) : List Nat :=
  (bs.reverse.dropWhile (fun b => b = 0)).reverse

/-- ASCII bytes of `".reloc"`. -/
def relocNameBytes : List Nat := [0x2E, 0x72, 0x65, 0x6C, 0x6F, 0x63]

def peSigOff (pe : List Nat) : Nat := u32le pe 0x3C

def coffOff (pe : List Nat) : Nat := peSigOff pe + 4

def peNumSections (pe : List Nat) : Nat := u16le pe (coffOff pe + 2)

def peOptHdrSize (pe : List Nat) : Nat := u16le pe (coffOff pe + 16)

def coffCharsOff (pe : List Nat) : Nat := coffOff pe + 18

def optOff (pe : List Nat) : Nat := coffOff pe + 20

def sizeOfImageOff (pe : List Nat) : Nat := optOff pe + 56

def sizeOfHeadersOff (pe : List Nat) : Nat := optOff pe + 60

/-- Data-directory slot 5 (base relocations): `opt_off + 112 + 5 * 8`. -/
def dd5Off (pe : List Nat) : Nat := optOff pe + 112 + 5 * 8

def secTableOff (pe : List Nat) : Nat := optOff pe + peOptHdrSize pe

def parsePESection (pe : List Nat) (sh_off : Nat) : PESection :=
  { name := rstrip0 (readBytes pe sh_off 8)
    header_off := sh_off
    virtual_size := u32le pe (sh_off + 8)
    virtual_address := u32le pe (sh_off + 12)
    raw_size := u32le pe (sh_off + 16)
    raw_offset := u32le pe (sh_off + 20) }

def peSections (pe : List Nat) : List PESection :=
  (List.range (peNumSections pe)).map fun i => parsePESection pe (secTableOff pe + i * 40)

/-- The loop `if name == ".reloc": reloc_idx = i` keeps the LAST match. -/
def findRelocSec (pe : List Nat) : Option PESection :=
  (peSections pe).foldl (fun acc s => if s.name = relocNameBytes then some s else acc) none

/-- Replace-existing-section path (taken when a `.reloc` section exists and
`len(reloc_data) <= raw_size`): overwrite the raw bytes, zero-fill up to the
old raw size, store the table length in the header dword at `header_off + 8`,
point data directory 5 at the section, and clear characteristics bit 0
(`IMAGE_FILE_RELOCS_STRIPPED`). -/
def patchReplaceSection (pe reloc_data : List Nat) (sec : PESection) : List Nat :=
  let pe1 := setBytes pe sec.raw_offset reloc_data
  let pe2 := setBytes pe1 (sec.raw_offset + reloc_data.length)
    (List.replicate (sec.raw_size - reloc_data.length) 0)
  let pe3 := setBytes pe2 (sec.header_off + 8) (bytesOfU32 reloc_data.length)
  let pe4 := setBytes pe3 (dd5Off pe) (bytesOfU32 sec.virtual_address)
  let pe5 := setBytes pe4 (dd5Off pe + 4) (bytesOfU32 reloc_data.length)
  setBytes pe5 (coffCharsOff pe) (bytesOfU16 (u16le pe5 (coffCharsOff pe) &&& 0xFFFE))

/-- Append-new-section path.  `(x + a - 1) / a * a` is the source's
`(x + a - 1) & ~(a - 1)` for the power-of-two alignments used. -/
def patchAppendNewSection (pe reloc_data : List Nat) : Except String (List Nat) :=
  let raw_size :=
    (reloc_data.length + PE_FILE_ALIGNMENT - 1) / PE_FILE_ALIGNMENT * PE_FILE_ALIGNMENT
  match peSections pe with
  | [] => Except.error "max() arg is an empty sequence"
  | s0 :: rest =>
    let last := rest.foldl (fun acc s => if s.virtual_address > acc.virtual_address then s else acc) s0
    let last_va_end := last.virtual_address + max last.virtual_size last.raw_size
    let new_rva :=
      (last_va_end + PE_SECTION_ALIGNMENT - 1) / PE_SECTION_ALIGNMENT * PE_SECTION_ALIGNMENT
    let new_raw_off :=
      (pe.length + PE_FILE_ALIGNMENT - 1) / PE_FILE_ALIGNMENT * PE_FILE_ALIGNMENT
    let headers_end := secTableOff pe + peNumSections pe * 40
    if headers_end + 40 > u32le pe (sizeOfHeadersOff pe) then
      Except.error "no room in PE header area for new section"
    else
      let header := [0x2E, 0x72, 0x65, 0x6C, 0x6F, 0x63, 0, 0] ++
        bytesOfU32 reloc_data.length ++ bytesOfU32 new_rva ++ bytesOfU32 raw_size ++
        bytesOfU32 new_raw_off ++ List.replicate 12 0 ++ bytesOfU32 0x42000040
      let pe1 := setBytes pe headers_end header
      let pe2 := setBytes pe1 (coffOff pe + 2) (bytesOfU16 (peNumSections pe + 1))
      let pe3 := setBytes pe2 (sizeOfImageOff pe) (bytesOfU32 (new_rva + PE_SECTION_ALIGNMENT))
      let pe4 := setBytes pe3 (dd5Off pe) (bytesOfU32 new_rva)
      let pe5 := setBytes pe4 (dd5Off pe + 4) (bytesOfU32 reloc_data.length)
      let pe6 := setBytes pe5 (coffCharsOff pe) (bytesOfU16 (u16le pe5 (coffCharsOff pe) &&& 0xFFFE))
      let pe7 :=
        if pe6.length < new_raw_off then pe6 ++ List.replicate (new_raw_off - pe6.length) 0
        else pe6
      Except.ok (pe7 ++ reloc_data ++ List.replicate (raw_size - reloc_data.length) 0)

/-- Add or replace the `.reloc` section and update the data directory.  The
returned buffer is what the source writes back to the destination path; on
`Except.error` nothing is ever written. -/
def patch_pe (pe reloc_data : List Nat) : Except String (List Nat) :=
  if readBytes pe (peSigOff pe) 4 = [0x50, 0x45, 0, 0] then
    if u16le pe (optOff pe) = 0x20B then
      match findRelocSec pe with
      | some sec =>
        if reloc_data.length ≤ sec.raw_size then
          Except.ok (patchReplaceSection pe reloc_data sec)
        else patchAppendNewSection pe reloc_data
      | none => patchAppendNewSection pe reloc_data
    else Except.error "not PE32+"
  else Except.error "invalid PE signature"

/-! ## `main`, minus the I/O

`mainRun elf_data pe` returns the final content of the destination file:
`Except.ok` is the single whole-buffer write the source performs, while
`Except.error` models an exception raised before that write (the destination
file is then untouched).  `sorted(reloc_offsets | scan_offsets)` is the
ascending duplicate-free list of the union of the two discovery results. -/

/-- The discovery half of `main`: verify the ELF magic/class/encoding, parse
the section table, read the explicit relocation records, union them with the
heuristic scan results and sort (`sorted(reloc_offsets | scan_offsets)` — the
ascending duplicate-free list of the union). -/
def discoveredOffsets (elf_data : List Nat) : Except String (List Nat) :=
  if readBytes elf_data 0 4 = [0x7F, 0x45, 0x4C, 0x46] ∧
      elf_data.getD 4 0 = 2 ∧ elf_data.getD 5 0 = 1 then
    let sections := parse_elf_sections elf_data
    match read_elf_reloc_offsets elf_data sections with
    | Except.error e => Except.error e
    | Except.ok reloc_offsets =>
      let scan_offsets := scan_data_for_pointers elf_data sections
      Except.ok (((reloc_offsets ++ scan_offsets).dedup).insertionSort (· ≤ ·))
  else Except.error "not a 64-bit little-endian ELF file"

def mainRun (elf_data pe : List Nat) : Except String (List Nat) :=
  match discoveredOffsets elf_data with
  | Except.error e => Except.error e
  | Except.ok all_offsets =>
    if all_offsets = [] then Except.ok pe
    else patch_pe pe (build_base_reloc_table all_offsets)

/-! ## Concrete test images

`peR` is a minimal 304-byte PE32+ image with one section, named `.reloc`
(virtual address 0x3000, raw size 16 at file offset 0x120, old content 0xFF),
optional-header size 160 so the section table sits at 0xF8 and data
directory 5 at 0xF0.  `peA` is the same layout with a `.text` section
instead (no `.reloc` present) and SizeOfHeaders 0x200, in a 512-byte file.
`elfEmpty` is a 64-byte RISC-V ELF with zero section headers; `elfScanW`,
`elfScanP` and `elfRelaW` are tiny ELF byte buffers for the scan theorems. -/

def peR : List Nat :=
  setBytes (setBytes (setBytes (setBytes (setBytes (setBytes (setBytes (setBytes
    (List.replicate 304 0)
    0x3C [0x40, 0, 0, 0])
    0x40 [0x50, 0x45, 0, 0])
    0x46 [1, 0])
    0x54 [0xA0, 0])
    0x56 [1, 0])
    0x58 [0x0B, 0x02])
    0xF8 [0x2E, 0x72, 0x65, 0x6C, 0x6F, 0x63, 0, 0,
          8, 0, 0, 0,
          0, 0x30, 0, 0,
          16, 0, 0, 0,
          0x20, 0x01, 0, 0])
    0x120 (List.replicate 16 0xFF)

def secR : PESection := parsePESection peR 0xF8

def tblR : List Nat := build_base_reloc_table [0x3001, 0x3005]

def peA : List Nat :=
  setBytes (setBytes (setBytes (setBytes (setBytes (setBytes (setBytes (setBytes
    (List.replicate 512 0)
    0x3C [0x40, 0, 0, 0])
    0x40 [0x50, 0x45, 0, 0])
    0x46 [1, 0])
    0x54 [0xA0, 0])
    0x58 [0x0B, 0x02])
    0x94 [0, 2, 0, 0])
    0xF8 [0x2E, 0x74, 0x65, 0x78, 0x74, 0, 0, 0,
          0x10, 0, 0, 0,
          0, 0x10, 0, 0,
          0, 2, 0, 0,
          0, 2, 0, 0])
    0x120 (List.replicate 0 0)

def tblA : List Nat := List.replicate 0x1004 0

def elfBad : List Nat := [0, 0, 0, 0, 0, 0]

def elfEmpty : List Nat :=
  setBytes (setBytes (List.replicate 64 0) 0 [0x7F, 0x45, 0x4C, 0x46, 2, 1])
    18 [0xF3, 0]

def dataSecW : ElfSection :=
  { addr := 4096, offset := 0, size := 8, shType := 1, entsize := 0 }

def rodataSecW : ElfSection :=
  { addr := 8192, offset := 8, size := 8, shType := 1, entsize := 0 }

def sectionsScanW : List (String × ElfSection) :=
  [(".data", dataSecW), (".rodata", rodataSecW)]

def elfScanW : List Nat := List.replicate 16 0

def elfScanP : List Nat := setBytes (List.replicate 16 0) 0 [0, 0x10, 0, 0, 0, 0, 0, 0]

def relaDataSecW : ElfSection :=
  { addr := 0, offset := 0x40, size := 24, shType := 4, entsize := 24 }

def sectionsRelaW : List (String × ElfSection) := [(".rela.data", relaDataSecW)]

def elfRelaW : List Nat :=
  setBytes (setBytes (List.replicate 128 0) 18 [0xF3, 0])
    0x40 ([0x34, 0x12, 0, 0, 0, 0, 0, 0] ++ [2, 0, 0, 0, 0, 0, 0, 0] ++
      List.replicate 8 0)

/-! ## Basic byte lemmas -/

example : build_base_reloc_table [4099, 4097] =
    [0, 16, 0, 0, 12, 0, 0, 0, 1, 160, 3, 160] := by decide

example : decodeReloc (build_base_reloc_table [4099, 4097]) = [(4096, 1), (4096, 3)] := by
  decide

theorem getD_drop_eq (bs : List Nat) (i j : Nat) :
    (bs.drop i).getD j 0 = bs.getD (i + j) 0 := by
  simp [List.getD_eq_getElem?_getD, List.getElem?_drop]

theorem u32le_drop (bs : List Nat) (i : Nat) : u32le (bs.drop i) 0 = u32le bs i := by
  simp [u32le, getD_drop_eq]

theorem u32le_cons4 (a b c d : Nat) (l : List Nat) :
    u32le (a :: b :: c :: d :: l) 0 = a + 256 * b + 65536 * c + 16777216 * d := rfl

theorem u32le_bytesOfU32 (v : Nat) (rest : List Nat) :
    u32le (bytesOfU32 v ++ rest) 0 = v % 4294967296 := by
  simp only [bytesOfU32, List.cons_append, List.nil_append, u32le_cons4]
  omega

theorem flatten_map_bytesOfU16_length (ws : List Nat) :
    ((ws.map bytesOfU16).flatten).length = 2 * ws.length := by
  induction ws with
  | nil => rfl
  | cons w ws ih =>
    simp only [List.map_cons, List.flatten_cons, List.length_append, ih, bytesOfU16]
    simp [List.length_cons]
    omega

theorem decodeEntries_cons (b0 b1 : Nat) (rest : List Nat) :
    decodeEntries (b0 :: b1 :: rest) = (b0 + 256 * b1) :: decodeEntries rest := rfl

theorem decodeEntries_flatten (ws : List Nat) (h : ∀ w ∈ ws, w < 65536) :
    decodeEntries ((ws.map bytesOfU16).flatten) = ws := by
  induction ws with
  | nil => rfl
  | cons w ws ih =>
    simp only [List.map_cons, List.flatten_cons, bytesOfU16, List.cons_append,
      List.nil_append, decodeEntries_cons]
    have hw : w < 65536 := h w (List.mem_cons_self _ _)
    have : w % 256 + 256 * (w / 256 % 256) = w := by omega
    rw [this, ih (fun x hx => h x (List.mem_cons_of_mem _ hx))]

/-! ## Builder block structure -/

theorem entryWord_eq {o : Nat} (h : o < 4096) :
    (IMAGE_REL_BASED_DIR64 <<< 12) ||| o = 40960 + o := by
  have h10 : IMAGE_REL_BASED_DIR64 <<< 12 = 2 ^ 12 * 10 := by decide
  rw [h10, ← Nat.mul_add_lt_is_or h 10]

theorem pad_flatten (ws : List Nat) :
    (if (8 + ((ws.map bytesOfU16).flatten).length) % 4 = 0 then (ws.map bytesOfU16).flatten
      else (ws.map bytesOfU16).flatten ++ bytesOfU16 IMAGE_REL_BASED_ABSOLUTE) =
    ((if (8 + 2 * ws.length) % 4 = 0 then ws else ws ++ [IMAGE_REL_BASED_ABSOLUTE]).map
      bytesOfU16).flatten := by
  rw [flatten_map_bytesOfU16_length]
  by_cases hc : (8 + 2 * ws.length) % 4 = 0
  · rw [if_pos hc, if_pos hc]
  · rw [if_neg hc, if_neg hc]
    simp [bytesOfU16, IMAGE_REL_BASED_ABSOLUTE]

theorem relocBlockEntryData_eq_flatten (offsets : List Nat) (page : Nat) :
    relocBlockEntryData offsets page = ((blockWords offsets page).map bytesOfU16).flatten := by
  unfold relocBlockEntryData blockWords
  dsimp only
  have hmap : (((pageOffsetsIn offsets page).insertionSort (· ≤ ·)).map
        (fun off => bytesOfU16 ((IMAGE_REL_BASED_DIR64 <<< 12) ||| off))) =
      (((pageOffsetsIn offsets page).insertionSort (· ≤ ·)).map
        (fun off => (IMAGE_REL_BASED_DIR64 <<< 12) ||| off)).map bytesOfU16 := by
    rw [List.map_map]; rfl
  rw [hmap]
  rw [show sortedPageOffs offsets page =
    (pageOffsetsIn offsets page).insertionSort (· ≤ ·) from rfl]
  exact pad_flatten _

theorem mem_pageOffsetsIn_lt {offsets : List Nat} {page o : Nat}
    (h : o ∈ pageOffsetsIn offsets page) : o < 4096 := by
  unfold pageOffsetsIn at h
  obtain ⟨r, -, rfl⟩ := List.mem_map.1 h
  exact Nat.mod_lt _ (by norm_num)

theorem mem_sortedPageOffs_lt {offsets : List Nat} {page o : Nat}
    (h : o ∈ sortedPageOffs offsets page) : o < 4096 :=
  mem_pageOffsetsIn_lt ((List.mem_insertionSort _).1 h)

theorem blockWords_lt (offsets : List Nat) (page : Nat) :
    ∀ w ∈ blockWords offsets page, w < 65536 := by
  intro w hw
  unfold blockWords at hw
  dsimp only at hw
  split at hw
  · obtain ⟨o, ho, rfl⟩ := List.mem_map.1 hw
    rw [entryWord_eq (mem_sortedPageOffs_lt ho)]
    have := mem_sortedPageOffs_lt ho
    omega
  · rcases List.mem_append.1 hw with hw | hw
    · obtain ⟨o, ho, rfl⟩ := List.mem_map.1 hw
      rw [entryWord_eq (mem_sortedPageOffs_lt ho)]
      have := mem_sortedPageOffs_lt ho
      omega
    · simp only [List.mem_singleton] at hw
      subst hw
      decide

theorem blockWords_filterMap (offsets : List Nat) (page : Nat) :
    ((blockWords offsets page).filterMap fun w =>
        if w / 4096 = IMAGE_REL_BASED_ABSOLUTE then none else some (page, w % 4096)) =
      (sortedPageOffs offsets page).map (fun o => (page, o)) := by
  have hreal : ((sortedPageOffs offsets page).map
        (fun off => (IMAGE_REL_BASED_DIR64 <<< 12) ||| off)).filterMap
        (fun w => if w / 4096 = IMAGE_REL_BASED_ABSOLUTE then none
          else some (page, w % 4096)) =
      (sortedPageOffs offsets page).map (fun o => (page, o)) := by
    rw [List.filterMap_map]
    rw [List.filterMap_congr (g := fun o => some (page, o)) ?_]
    · exact congrFun (List.filterMap_eq_map fun o => (page, o)) _
    · intro o ho
      have hlt := mem_sortedPageOffs_lt ho
      have h1 : (IMAGE_REL_BASED_DIR64 <<< 12) ||| o = 40960 + o := entryWord_eq hlt
      have h2 : (40960 + o) / 4096 = 10 := by omega
      have h3 : (40960 + o) % 4096 = o := by omega
      simp [h1, h2, h3, IMAGE_REL_BASED_ABSOLUTE]
  unfold blockWords
  dsimp only
  by_cases hc : (8 + 2 * ((sortedPageOffs offsets page).map
      (fun off => (IMAGE_REL_BASED_DIR64 <<< 12) ||| off)).length) % 4 = 0
  · rw [if_pos hc]
    exact hreal
  · rw [if_neg hc, List.filterMap_append, hreal]
    simp [IMAGE_REL_BASED_ABSOLUTE]

theorem decodeEntries_blockEntryData (offsets : List Nat) (page : Nat) :
    decodeEntries (relocBlockEntryData offsets page) = blockWords offsets page := by
  rw [relocBlockEntryData_eq_flatten]
  exact decodeEntries_flatten _ (blockWords_lt offsets page)

theorem relocBlockEntryData_length (offsets : List Nat) (page : Nat) :
    (relocBlockEntryData offsets page).length = 2 * (blockWords offsets page).length := by
  rw [relocBlockEntryData_eq_flatten, flatten_map_bytesOfU16_length]

theorem relocBlockBytes_length (offsets : List Nat) (page : Nat) :
    (relocBlockBytes offsets page).length = 8 + (relocBlockEntryData offsets page).length := by
  unfold relocBlockBytes
  simp only [List.length_append, bytesOfU32, List.length_cons, List.length_nil]

theorem blockWords_pad_mod4 (offsets : List Nat) (page : Nat) :
    (8 + 2 * (blockWords offsets page).length) % 4 = 0 := by
  unfold blockWords
  dsimp only
  by_cases hc : (8 + 2 * ((sortedPageOffs offsets page).map
      (fun off => (IMAGE_REL_BASED_DIR64 <<< 12) ||| off)).length) % 4 = 0
  · rw [if_pos hc]
    exact hc
  · rw [if_neg hc]
    rw [List.length_append]
    simp only [List.length_singleton]
    omega

/-! ## Decoding one block -/

theorem u32le_cons8_4 (a0 a1 a2 a3 b0 b1 b2 b3 : Nat) (l : List Nat) :
    u32le (a0 :: a1 :: a2 :: a3 :: b0 :: b1 :: b2 :: b3 :: l) 4 =
      b0 + 256 * b1 + 65536 * b2 + 16777216 * b3 := rfl

theorem readBytes_cons8 (a0 a1 a2 a3 b0 b1 b2 b3 : Nat) (ed rest : List Nat) :
    readBytes (a0 :: a1 :: a2 :: a3 :: b0 :: b1 :: b2 :: b3 :: (ed ++ rest)) 8 ed.length =
      ed :=
  List.take_left ed rest

theorem drop_cons8_add (a0 a1 a2 a3 b0 b1 b2 b3 : Nat) (l : List Nat) (n : Nat) :
    (a0 :: a1 :: a2 :: a3 :: b0 :: b1 :: b2 :: b3 :: l).drop (8 + n) = l.drop n := by
  rw [← List.drop_drop]
  rfl

theorem decodeBlocks_cons_block (fuel page : Nat) (ed rest : List Nat)
    (hpage : page < 4294967296) (hsize : 8 + ed.length < 4294967296) :
    decodeBlocks (fuel + 1) (bytesOfU32 page ++ (bytesOfU32 (8 + ed.length) ++ (ed ++ rest))) =
      ((decodeEntries ed).filterMap fun w =>
        if w / 4096 = IMAGE_REL_BASED_ABSOLUTE then none else some (page, w % 4096)) ++
        decodeBlocks fuel rest := by
  simp only [bytesOfU32, List.cons_append, List.nil_append]
  simp only [decodeBlocks]
  rw [u32le_cons4, u32le_cons8_4]
  have hpageeq : page % 256 + 256 * (page / 256 % 256) + 65536 * (page / 65536 % 256) +
      16777216 * (page / 16777216 % 256) = page := by omega
  have hsizeeq : (8 + ed.length) % 256 + 256 * ((8 + ed.length) / 256 % 256) +
      65536 * ((8 + ed.length) / 65536 % 256) +
      16777216 * ((8 + ed.length) / 16777216 % 256) = 8 + ed.length := by omega
  rw [hpageeq, hsizeeq]
  have h8 : 8 + ed.length - 8 = ed.length := by omega
  rw [h8, readBytes_cons8, drop_cons8_add, List.drop_left]

/-! ## Decoding the whole table -/

theorem length_flatten_blocks (offsets : List Nat) (ps : List Nat) :
    ps.length ≤ ((ps.map (relocBlockBytes offsets)).flatten).length := by
  induction ps with
  | nil => simp
  | cons p ps ih =>
    simp only [List.map_cons, List.flatten_cons, List.length_append, List.length_cons]
    have h8 : 8 ≤ (relocBlockBytes offsets p).length := by
      rw [relocBlockBytes_length]
      omega
    omega

theorem decodeBlocks_flatten (offsets : List Nat) :
    ∀ (ps : List Nat) (fuel : Nat), ps.length ≤ fuel →
      (∀ p ∈ ps, p < 4294967296) →
      (∀ p ∈ ps, 8 + (relocBlockEntryData offsets p).length < 4294967296) →
      decodeBlocks fuel ((ps.map (relocBlockBytes offsets)).flatten) =
        (ps.map (fun p => (sortedPageOffs offsets p).map (fun o => (p, o)))).flatten := by
  intro ps
  induction ps with
  | nil =>
    intro fuel _ _ _
    cases fuel <;> rfl
  | cons p ps ih =>
    intro fuel hfuel hlt hsz
    cases fuel with
    | zero => simp at hfuel
    | succ fuel =>
      simp only [List.map_cons, List.flatten_cons]
      rw [show relocBlockBytes offsets p ++ ((ps.map (relocBlockBytes offsets)).flatten) =
          bytesOfU32 p ++ (bytesOfU32 (8 + (relocBlockEntryData offsets p).length) ++
            (relocBlockEntryData offsets p ++ (ps.map (relocBlockBytes offsets)).flatten))
        from by simp [relocBlockBytes, List.append_assoc]]
      rw [decodeBlocks_cons_block fuel p (relocBlockEntryData offsets p) _
        (hlt p (List.mem_cons_self _ _)) (hsz p (List.mem_cons_self _ _))]
      rw [decodeEntries_blockEntryData, blockWords_filterMap]
      rw [ih fuel (by simpa using Nat.le_of_succ_le_succ hfuel)
        (fun q hq => hlt q (List.mem_cons_of_mem _ hq))
        (fun q hq => hsz q (List.mem_cons_of_mem _ hq))]

theorem decodeReloc_build (offsets : List Nat)
    (hlt : ∀ p ∈ relocPages offsets, p < 4294967296)
    (hsz : ∀ p ∈ relocPages offsets, 8 + (relocBlockEntryData offsets p).length < 4294967296) :
    decodeReloc (build_base_reloc_table offsets) =
      ((relocPages offsets).map
        (fun p => (sortedPageOffs offsets p).map (fun o => (p, o)))).flatten := by
  unfold decodeReloc build_base_reloc_table
  rw [List.flatMap_def]
  exact decodeBlocks_flatten offsets (relocPages offsets) _
    (length_flatten_blocks offsets (relocPages offsets)) hlt hsz

/-! ## Grouping permutation -/

theorem perm_flatten_groups (f : Nat → Nat) :
    ∀ (ps : List Nat) (l : List Nat), ps.Nodup → (∀ r ∈ l, f r ∈ ps) →
      ((ps.map (fun p => l.filter (fun r => f r = p))).flatten).Perm l := by
  intro ps
  induction ps with
  | nil =>
    intro l _ hcov
    have : l = [] := List.eq_nil_iff_forall_not_mem.2 fun r hr => by
      simpa using hcov r hr
    simp [this]
  | cons p ps ih =>
    intro l hnd hcov
    have hp : p ∉ ps := (List.nodup_cons.1 hnd).1
    have hnd' : ps.Nodup := (List.nodup_cons.1 hnd).2
    simp only [List.map_cons, List.flatten_cons]
    have hkey : ∀ q ∈ ps,
        l.filter (fun r => f r = q) =
          (l.filter (fun r => !(decide (f r = p)))).filter (fun r => f r = q) := by
      intro q hq
      rw [List.filter_filter]
      apply List.filter_congr
      intro r _
      by_cases h1 : f r = p
      · have hpq : ¬ p = q := fun hpq => hp (hpq ▸ hq)
        simp [h1, hpq]
      · simp [h1]
    have hmapeq : ps.map (fun q => l.filter (fun r => f r = q)) =
        ps.map (fun q => (l.filter (fun r => !(decide (f r = p)))).filter
          (fun r => f r = q)) :=
      List.map_congr_left hkey
    rw [hmapeq]
    have hcov' : ∀ r ∈ l.filter (fun r => !(decide (f r = p))), f r ∈ ps := by
      intro r hr
      have hmem := (List.mem_filter.1 hr).1
      have hne : ¬ f r = p := by
        have := (List.mem_filter.1 hr).2
        simpa using this
      rcases List.mem_cons.1 (hcov r hmem) with h | h
      · exact absurd h hne
      · exact h
    have hperm := ih (l.filter (fun r => !(decide (f r = p)))) hnd' hcov'
    exact (hperm.append_left _).trans (List.filter_append_perm _ l)

theorem flatten_perm_congr {α : Type} (g1 g2 : Nat → List α) :
    ∀ ps : List Nat, (∀ p ∈ ps, (g1 p).Perm (g2 p)) →
      ((ps.map g1).flatten).Perm ((ps.map g2).flatten) := by
  intro ps
  induction ps with
  | nil => intro _; exact List.Perm.refl _
  | cons p ps ih =>
    intro h
    simp only [List.map_cons, List.flatten_cons]
    exact (h p (List.mem_cons_self _ _)).append
      (ih fun q hq => h q (List.mem_cons_of_mem _ hq))

theorem relocPages_nodup (offsets : List Nat) : (relocPages offsets).Nodup :=
  ((List.perm_insertionSort (· ≤ ·) ((offsets.map pageOf).dedup)).symm).nodup
    (List.nodup_dedup _)

theorem mem_relocPages {offsets : List Nat} {p : Nat} :
    p ∈ relocPages offsets ↔ ∃ r ∈ offsets, pageOf r = p := by
  unfold relocPages
  rw [List.mem_insertionSort, List.mem_dedup, List.mem_map]

theorem pageOf_mem_relocPages {offsets : List Nat} {r : Nat} (hr : r ∈ offsets) :
    pageOf r ∈ relocPages offsets :=
  mem_relocPages.2 ⟨r, hr, rfl⟩

theorem pageOffsetsIn_nodup {offsets : List Nat} (hnd : offsets.Nodup) (page : Nat) :
    (pageOffsetsIn offsets page).Nodup := by
  unfold pageOffsetsIn
  apply List.Nodup.map_on ?_ (hnd.filter _)
  intro x hx y hy hxy
  have hxp : pageOf x = page := by simpa using (List.mem_filter.1 hx).2
  have hyp : pageOf y = page := by simpa using (List.mem_filter.1 hy).2
  have hpp : pageOf x = pageOf y := hxp.trans hyp.symm
  simp only [pageOf] at hpp
  simp only [pageOff] at hxy
  omega

theorem pageOffsetsIn_length_le {offsets : List Nat} (hnd : offsets.Nodup) (page : Nat) :
    (pageOffsetsIn offsets page).length ≤ 4096 := by
  have hsub : pageOffsetsIn offsets page ⊆ List.range 4096 := fun o ho =>
    List.mem_range.2 (mem_pageOffsetsIn_lt ho)
  have := ((pageOffsetsIn_nodup hnd page).subperm hsub).length_le
  simpa using this

theorem blockWords_length_le {offsets : List Nat} (hnd : offsets.Nodup) (page : Nat) :
    (blockWords offsets page).length ≤ 4097 := by
  have hpo := pageOffsetsIn_length_le hnd page
  unfold blockWords
  dsimp only
  have hlen : ((sortedPageOffs offsets page).map
      (fun off => (IMAGE_REL_BASED_DIR64 <<< 12) ||| off)).length =
      (pageOffsetsIn offsets page).length := by
    rw [List.length_map]
    exact List.length_insertionSort _ _
  by_cases hc : (8 + 2 * ((sortedPageOffs offsets page).map
      (fun off => (IMAGE_REL_BASED_DIR64 <<< 12) ||| off)).length) % 4 = 0
  · rw [if_pos hc, hlen]
    omega
  · rw [if_neg hc, List.length_append, hlen]
    simp only [List.length_singleton]
    omega

/-- C1: For every duplicate-free set of RVAs (below 2^32, as PE RVAs are
32-bit), decoding the byte string produced by the Relocation Table Builder,
ignoring no-op padding entries, yields exactly the input set of
(page, intra-page offset) pairs — a permutation of the pointwise image, with
no duplicates and no omissions. -/
theorem C1_build_table_roundtrip (offsets : List Nat) (hnd : offsets.Nodup)
    (hb : ∀ r ∈ offsets, r < 4294967296) :
    (decodeReloc (build_base_reloc_table offsets)).Perm
      (offsets.map fun r => (pageOf r, pageOff r)) ∧
    (decodeReloc (build_base_reloc_table offsets)).Nodup := by
  have hlt : ∀ p ∈ relocPages offsets, p < 4294967296 := by
    intro p hp
    obtain ⟨r, hr, rfl⟩ := mem_relocPages.1 hp
    exact Nat.lt_of_le_of_lt (Nat.div_mul_le_self r 4096) (hb r hr)
  have hsz : ∀ p ∈ relocPages offsets,
      8 + (relocBlockEntryData offsets p).length < 4294967296 := by
    intro p _
    have h1 := relocBlockEntryData_length offsets p
    have h2 := blockWords_length_le hnd p
    omega
  have hperm : (decodeReloc (build_base_reloc_table offsets)).Perm
      (offsets.map fun r => (pageOf r, pageOff r)) := by
    rw [decodeReloc_build offsets hlt hsz]
    have step1 : (((relocPages offsets).map
        (fun p => (sortedPageOffs offsets p).map (fun o => (p, o)))).flatten).Perm
        (((relocPages offsets).map
          (fun p => (pageOffsetsIn offsets p).map (fun o => (p, o)))).flatten) :=
      flatten_perm_congr _ _ _ fun p _ =>
        (List.perm_insertionSort (· ≤ ·) (pageOffsetsIn offsets p)).map _
    have step2 : ((relocPages offsets).map
        (fun p => (pageOffsetsIn offsets p).map (fun o => (p, o)))) =
        ((relocPages offsets).map
          (fun p => (offsets.filter (fun r => pageOf r = p)).map
            (fun r => (pageOf r, pageOff r)))) := by
      apply List.map_congr_left
      intro p _
      unfold pageOffsetsIn
      rw [List.map_map]
      apply List.map_congr_left
      intro r hr
      have hpr : pageOf r = p := by simpa using (List.mem_filter.1 hr).2
      simp [Function.comp, hpr]
    have step3 : (((relocPages offsets).map
        (fun p => (offsets.filter (fun r => pageOf r = p)).map
          (fun r => (pageOf r, pageOff r)))).flatten) =
        ((((relocPages offsets).map
          (fun p => offsets.filter (fun r => pageOf r = p))).flatten).map
            (fun r => (pageOf r, pageOff r))) := by
      rw [List.map_flatten, List.map_map]
      rfl
    have step4 := perm_flatten_groups pageOf (relocPages offsets) offsets
      (relocPages_nodup offsets) (fun r hr => pageOf_mem_relocPages hr)
    refine step1.trans ?_
    rw [step2, step3]
    exact step4.map _
  have hmapnodup : (offsets.map fun r => (pageOf r, pageOff r)).Nodup := by
    apply List.Nodup.map_on ?_ hnd
    intro x hx y hy hxy
    simp only [Prod.mk.injEq] at hxy
    obtain ⟨h1, h2⟩ := hxy
    simp only [pageOf] at h1
    simp only [pageOff] at h2
    omega
  exact ⟨hperm, hperm.nodup_iff.2 hmapnodup⟩

/-- C7: For every duplicate-free input offset set, each block in the builder's
output has a byte length that is a multiple of 4 and equal to 8 plus 2 times
the number of entries (real entries plus padding entries), with at most one
no-op padding entry per block. -/
theorem C7_block_length (offsets : List Nat) (hnd : offsets.Nodup) :
    ∀ page ∈ relocPages offsets,
      (relocBlockBytes offsets page).length % 4 = 0 ∧
      (relocBlockBytes offsets page).length =
        8 + 2 * (decodeEntries (relocBlockEntryData offsets page)).length ∧
      (decodeEntries (relocBlockEntryData offsets page)).countP
        (fun w => w / 4096 = IMAGE_REL_BASED_ABSOLUTE) ≤ 1 := by
  intro page _
  refine ⟨?_, ?_, ?_⟩
  · rw [relocBlockBytes_length, relocBlockEntryData_length]
    exact blockWords_pad_mod4 offsets page
  · rw [relocBlockBytes_length, relocBlockEntryData_length, decodeEntries_blockEntryData]
  · rw [decodeEntries_blockEntryData]
    unfold blockWords
    dsimp only
    have hreal0 : ((sortedPageOffs offsets page).map
        (fun off => (IMAGE_REL_BASED_DIR64 <<< 12) ||| off)).countP
        (fun w => decide (w / 4096 = IMAGE_REL_BASED_ABSOLUTE)) = 0 := by
      rw [List.countP_eq_zero]
      intro w hw
      obtain ⟨o, ho, rfl⟩ := List.mem_map.1 hw
      have hlt := mem_sortedPageOffs_lt ho
      rw [entryWord_eq hlt]
      have h10 : (40960 + o) / 4096 = 10 := by omega
      simp [h10, IMAGE_REL_BASED_ABSOLUTE]
    by_cases hc : (8 + 2 * ((sortedPageOffs offsets page).map
        (fun off => (IMAGE_REL_BASED_DIR64 <<< 12) ||| off)).length) % 4 = 0
    · rw [if_pos hc, hreal0]
      omega
    · rw [if_neg hc, List.countP_append, hreal0]
      have hpad : ([IMAGE_REL_BASED_ABSOLUTE] : List Nat).countP
          (fun w => decide (w / 4096 = IMAGE_REL_BASED_ABSOLUTE)) = 1 := by decide
      rw [hpad]

/-- C8 counterexample: with input offset set {5} the single block carries the
real entry for intra-page offset 5 followed by a no-op padding entry whose
offset field is 0, so the block's entries are NOT strictly ascending by their
12-bit intra-page offset (the claim as stated fails, with blocks still being
strictly ascending by page RVA). -/
theorem C8_counterexample :
    ¬ (((decodeEntries (relocBlockEntryData [5] 0)).map
        (fun w => w % 4096)).Sorted (· < ·)) := by
  decide

/-- C8 amended: for every duplicate-free input offset set, the REAL (DIR64)
entries within each block — excluding the optional trailing no-op padding
entry, whose offset field is always 0 — are strictly ascending by their 12-bit
intra-page offset, and the blocks appear in strictly ascending order of page
RVA. -/
theorem C8_sorted (offsets : List Nat) (hnd : offsets.Nodup) :
    (relocPages offsets).Sorted (· < ·) ∧
    ∀ page ∈ relocPages offsets,
      (((decodeEntries (relocBlockEntryData offsets page)).filter
          (fun w => w / 4096 ≠ IMAGE_REL_BASED_ABSOLUTE)).map
        (fun w => w % 4096)).Sorted (· < ·) := by
  constructor
  · exact (List.sorted_insertionSort _ _).lt_of_le (relocPages_nodup offsets)
  · intro page hp
    rw [decodeEntries_blockEntryData]
    unfold blockWords
    dsimp only
    have hsorted_lt : (sortedPageOffs offsets page).Sorted (· < ·) := by
      have hle : (sortedPageOffs offsets page).Sorted (· ≤ ·) :=
        List.sorted_insertionSort _ _
      have hnd2 : (sortedPageOffs offsets page).Nodup :=
        ((List.perm_insertionSort (· ≤ ·) _).symm).nodup
          (pageOffsetsIn_nodup hnd page)
      exact hle.lt_of_le hnd2
    set real := (sortedPageOffs offsets page).map
      (fun off => (IMAGE_REL_BASED_DIR64 <<< 12) ||| off) with hreal
    have hfr : real.filter (fun w => decide (w / 4096 ≠ IMAGE_REL_BASED_ABSOLUTE)) =
        real := by
      rw [List.filter_eq_self]
      intro w hw
      rw [hreal] at hw
      obtain ⟨o, ho, rfl⟩ := List.mem_map.1 hw
      have hlt := mem_sortedPageOffs_lt ho
      rw [entryWord_eq hlt]
      have h10 : (40960 + o) / 4096 = 10 := by omega
      simp [h10, IMAGE_REL_BASED_ABSOLUTE]
    have hmapback : real.map (fun w => w % 4096) = sortedPageOffs offsets page := by
      rw [hreal, List.map_map]
      have hpt : ∀ o ∈ sortedPageOffs offsets page,
          ((fun w => w % 4096) ∘ fun off => (IMAGE_REL_BASED_DIR64 <<< 12) ||| off) o =
            o := by
        intro o ho
        have hlt := mem_sortedPageOffs_lt ho
        simp only [Function.comp_apply, entryWord_eq hlt]
        omega
      rw [List.map_congr_left hpt, List.map_id']
    by_cases hc : (8 + 2 * real.length) % 4 = 0
    · rw [if_pos hc, hfr, hmapback]
      exact hsorted_lt
    · rw [if_neg hc, List.filter_append, hfr]
      have hpadf : ([IMAGE_REL_BASED_ABSOLUTE] : List Nat).filter
          (fun w => decide (w / 4096 ≠ IMAGE_REL_BASED_ABSOLUTE)) = [] := by decide
      rw [hpadf, List.append_nil, hmapback]
      exact hsorted_lt

/-! ## Reading through `readBytes` slices -/

theorem getD_readBytes {bs : List Nat} {off n t : Nat} (h : t < n) :
    (readBytes bs off n).getD t 0 = bs.getD (off + t) 0 := by
  unfold readBytes
  rw [List.getD_eq_getElem?_getD, List.getElem?_take_of_lt h,
    ← List.getD_eq_getElem?_getD, getD_drop_eq]

theorem u64le_readBytes {bs : List Nat} {off n j : Nat} (h : j + 8 ≤ n) :
    u64le (readBytes bs off n) j = u64le bs (off + j) := by
  unfold u64le u32le
  rw [getD_readBytes (show j < n by omega), getD_readBytes (show j + 1 < n by omega),
    getD_readBytes (show j + 2 < n by omega), getD_readBytes (show j + 3 < n by omega),
    getD_readBytes (show j + 4 < n by omega), getD_readBytes (show j + 4 + 1 < n by omega),
    getD_readBytes (show j + 4 + 2 < n by omega),
    getD_readBytes (show j + 4 + 3 < n by omega)]
  simp [Nat.add_assoc]

theorem u64le_eq_of_agree {a b : List Nat} {p : Nat}
    (h : ∀ t, t < 8 → a.getD (p + t) 0 = b.getD (p + t) 0) :
    u64le a p = u64le b p := by
  unfold u64le u32le
  rw [show a.getD p 0 = b.getD p 0 from by simpa using h 0 (by omega),
    h 1 (by omega), h 2 (by omega), h 3 (by omega), h 4 (by omega),
    show a.getD (p + 4 + 1) 0 = b.getD (p + 4 + 1) 0 from by
      simpa [Nat.add_assoc] using h 5 (by omega),
    show a.getD (p + 4 + 2) 0 = b.getD (p + 4 + 2) 0 from by
      simpa [Nat.add_assoc] using h 6 (by omega),
    show a.getD (p + 4 + 3) 0 = b.getD (p + 4 + 3) 0 from by
      simpa [Nat.add_assoc] using h 7 (by omega)]

/-! ## Heuristic scan lemmas -/

theorem scan_eq_some (elf_data : List Nat) (sections : List (String × ElfSection))
    (data_sec : ElfSection) (lo hi : Nat)
    (hlook : sections.lookup ".data" = some data_sec)
    (hir : imageRange (sections.map Prod.snd) = (some lo, hi)) :
    scan_data_for_pointers elf_data sections =
      (List.range (data_sec.size / 8)).filterMap fun k =>
        if lo ≤ u64le elf_data (data_sec.offset + 8 * k) ∧
            u64le elf_data (data_sec.offset + 8 * k) < hi then
          some (data_sec.addr + 8 * k)
        else none := by
  unfold scan_data_for_pointers
  rw [hlook, hir]

theorem scan_eq_nil (elf_data : List Nat) (sections : List (String × ElfSection))
    (data_sec : ElfSection) (hi : Nat)
    (hlook : sections.lookup ".data" = some data_sec)
    (hir : imageRange (sections.map Prod.snd) = (none, hi)) :
    scan_data_for_pointers elf_data sections = [] := by
  unfold scan_data_for_pointers
  rw [hlook, hir]

/-- C10: the heuristic pointer scan steps through `.data` in 8-byte words
only: every scan-derived RVA is the section address plus `8 * k` for some
`k < size / 8` (so the trailing `size % 8` bytes never produce an offset),
and the scan result depends only on the bytes of the 8-byte words at
section-relative offsets `0, 8, ..., 8 * (size / 8) - 8` — two ELF buffers
that agree on those byte positions produce identical scan results. -/
theorem C10_scan_words (elf_data : List Nat) (sections : List (String × ElfSection))
    (data_sec : ElfSection) (hlook : sections.lookup ".data" = some data_sec) :
    (∀ r ∈ scan_data_for_pointers elf_data sections,
      ∃ k, k < data_sec.size / 8 ∧ r = data_sec.addr + 8 * k) ∧
    (∀ elf2 : List Nat,
      (∀ j, (∃ k, k < data_sec.size / 8 ∧ data_sec.offset + 8 * k ≤ j ∧
          j < data_sec.offset + 8 * k + 8) →
        elf_data.getD j 0 = elf2.getD j 0) →
      scan_data_for_pointers elf_data sections = scan_data_for_pointers elf2 sections) := by
  constructor
  · intro r hr
    rcases hir : imageRange (sections.map Prod.snd) with ⟨olo, hi⟩
    cases olo with
    | none =>
      rw [scan_eq_nil elf_data sections data_sec hi hlook hir] at hr
      simp at hr
    | some lo =>
      rw [scan_eq_some elf_data sections data_sec lo hi hlook hir] at hr
      obtain ⟨k, hk, hsome⟩ := List.mem_filterMap.1 hr
      rw [List.mem_range] at hk
      by_cases hc : lo ≤ u64le elf_data (data_sec.offset + 8 * k) ∧
          u64le elf_data (data_sec.offset + 8 * k) < hi
      · rw [if_pos hc] at hsome
        exact ⟨k, hk, (Option.some.injEq _ _ ▸ hsome).symm⟩
      · rw [if_neg hc] at hsome
        cases hsome
  · intro elf2 hagree
    rcases hir : imageRange (sections.map Prod.snd) with ⟨olo, hi⟩
    cases olo with
    | none =>
      rw [scan_eq_nil elf_data sections data_sec hi hlook hir,
        scan_eq_nil elf2 sections data_sec hi hlook hir]
    | some lo =>
      rw [scan_eq_some elf_data sections data_sec lo hi hlook hir,
        scan_eq_some elf2 sections data_sec lo hi hlook hir]
      apply List.filterMap_congr
      intro k hk
      rw [List.mem_range] at hk
      have hval : u64le elf_data (data_sec.offset + 8 * k) =
          u64le elf2 (data_sec.offset + 8 * k) := by
        apply u64le_eq_of_agree
        intro t ht
        exact hagree (data_sec.offset + 8 * k + t) ⟨k, hk, by omega, by omega⟩
      rw [hval]

/-- C5: the heuristic pointer scan consults only the section named `.data`:
for every ELF whose in-range 8-byte patterns occur only inside the
read-only-data (`.rodata`) section — a file region disjoint from `.data` —
the scan-derived offset set is empty. -/
theorem C5_rodata_only_patterns_scan_empty (elf_data : List Nat)
    (sections : List (String × ElfSection)) (data_sec rodata_sec : ElfSection)
    (lo hi : Nat)
    (hlook : sections.lookup ".data" = some data_sec)
    (hir : imageRange (sections.map Prod.snd) = (some lo, hi))
    (hb : data_sec.offset + data_sec.size ≤ elf_data.length)
    (hpat : ∀ j, j + 8 ≤ elf_data.length → lo ≤ u64le elf_data j →
      u64le elf_data j < hi →
      rodata_sec.offset ≤ j ∧ j + 8 ≤ rodata_sec.offset + rodata_sec.size)
    (hdisj : data_sec.offset + data_sec.size ≤ rodata_sec.offset ∨
      rodata_sec.offset + rodata_sec.size ≤ data_sec.offset) :
    scan_data_for_pointers elf_data sections = [] := by
  rw [scan_eq_some elf_data sections data_sec lo hi hlook hir]
  rw [List.filterMap_eq_nil_iff]
  intro k hk
  rw [List.mem_range] at hk
  have hin : data_sec.offset + 8 * k + 8 ≤ elf_data.length := by omega
  rw [if_neg]
  rintro ⟨hlo, hhi⟩
  have hro := hpat (data_sec.offset + 8 * k) hin hlo hhi
  omega

/-! ## Explicit-record scan lemmas -/

theorem mem_relaSectionOffsets {elf_data : List Nat} {sec : ElfSection} {t : Nat}
    (hb : sec.offset + sec.size ≤ elf_data.length)
    (he : 16 ≤ (if sec.entsize = 0 then 24 else sec.entsize))
    (hm : sec.size % (if sec.entsize = 0 then 24 else sec.entsize) = 0) :
    t ∈ relaSectionOffsets elf_data sec ↔
      ∃ k, k < sec.size / (if sec.entsize = 0 then 24 else sec.entsize) ∧
        u64le elf_data (sec.offset + k * (if sec.entsize = 0 then 24 else sec.entsize)) =
          t ∧
        u64le elf_data
          (sec.offset + k * (if sec.entsize = 0 then 24 else sec.entsize) + 8) %
          4294967296 = 2 := by
  have he1 : 1 ≤ (if sec.entsize = 0 then 24 else sec.entsize) := by omega
  obtain ⟨m, hm2⟩ := Nat.dvd_of_mod_eq_zero hm
  have hraw : (readBytes elf_data sec.offset sec.size).length = sec.size := by
    unfold readBytes
    rw [List.length_take, List.length_drop]
    omega
  have hdiv : sec.size / (if sec.entsize = 0 then 24 else sec.entsize) = m := by
    rw [hm2]
    exact Nat.mul_div_cancel_left m (by omega)
  have hcount : ((readBytes elf_data sec.offset sec.size).length +
      (if sec.entsize = 0 then 24 else sec.entsize) - 1) /
      (if sec.entsize = 0 then 24 else sec.entsize) = m := by
    rw [hraw, hm2]
    rw [show (if sec.entsize = 0 then 24 else sec.entsize) * m +
        (if sec.entsize = 0 then 24 else sec.entsize) - 1 =
        (if sec.entsize = 0 then 24 else sec.entsize) * m +
        ((if sec.entsize = 0 then 24 else sec.entsize) - 1) by omega]
    rw [Nat.mul_add_div (by omega), Nat.div_eq_of_lt (by omega)]
    omega
  have hbound : ∀ k, k < m →
      k * (if sec.entsize = 0 then 24 else sec.entsize) + 16 ≤ sec.size := by
    intro k hk
    have h5 : (k + 1) * (if sec.entsize = 0 then 24 else sec.entsize) ≤
        m * (if sec.entsize = 0 then 24 else sec.entsize) :=
      Nat.mul_le_mul_right _ (by omega)
    calc k * (if sec.entsize = 0 then 24 else sec.entsize) + 16
        ≤ k * (if sec.entsize = 0 then 24 else sec.entsize) +
          (if sec.entsize = 0 then 24 else sec.entsize) := by omega
      _ = (k + 1) * (if sec.entsize = 0 then 24 else sec.entsize) :=
          (Nat.succ_mul k _).symm
      _ ≤ m * (if sec.entsize = 0 then 24 else sec.entsize) := h5
      _ = sec.size := by rw [hm2, Nat.mul_comm]
  unfold relaSectionOffsets
  dsimp only
  rw [hcount, hdiv]
  rw [List.mem_filterMap]
  constructor
  · rintro ⟨k, hk, hsome⟩
    rw [List.mem_range] at hk
    have hkb := hbound k hk
    rw [u64le_readBytes (by omega), u64le_readBytes (by omega)] at hsome
    by_cases hc : u64le elf_data
        (sec.offset + (k * (if sec.entsize = 0 then 24 else sec.entsize) + 8)) %
        4294967296 = 2
    · rw [if_pos hc] at hsome
      refine ⟨k, hk, by simpa using hsome, ?_⟩
      rw [show sec.offset + k * (if sec.entsize = 0 then 24 else sec.entsize) + 8 =
        sec.offset + (k * (if sec.entsize = 0 then 24 else sec.entsize) + 8) by omega]
      exact hc
    · rw [if_neg hc] at hsome
      cases hsome
  · rintro ⟨k, hk, hoff, hinfo⟩
    have hkb := hbound k hk
    refine ⟨k, List.mem_range.2 hk, ?_⟩
    rw [u64le_readBytes (by omega), u64le_readBytes (by omega)]
    rw [if_pos]
    · simpa using hoff
    · rw [show sec.offset + (k * (if sec.entsize = 0 then 24 else sec.entsize) + 8) =
        sec.offset + k * (if sec.entsize = 0 then 24 else sec.entsize) + 8 by omega]
      exact hinfo

/-- C6: for a supported machine, the explicit-record scan returns offset t
iff some section of type SHT_RELA (4) named `.rela.data` or `.rela.rodata`
contains a record with target offset t whose relocation-type field (low 32
bits of `r_info`) equals the 64-bit-absolute code 2 shared by both supported
architectures; records in any other section (including the code section's
`.rela.text`) are never returned. -/
theorem C6_rela_records (elf_data : List Nat) (sections : List (String × ElfSection))
    (hmach : u16le elf_data 18 = 0xF3 ∨ u16le elf_data 18 = 0x102)
    (hwf : ∀ ns ∈ sections, ns.2.shType = 4 →
      (ns.1 = ".rela.data" ∨ ns.1 = ".rela.rodata") →
      ns.2.offset + ns.2.size ≤ elf_data.length ∧
        16 ≤ (if ns.2.entsize = 0 then 24 else ns.2.entsize) ∧
        ns.2.size % (if ns.2.entsize = 0 then 24 else ns.2.entsize) = 0) :
    ∃ l, read_elf_reloc_offsets elf_data sections = Except.ok l ∧
      ∀ t, t ∈ l ↔ ∃ ns ∈ sections, ns.2.shType = 4 ∧
        (ns.1 = ".rela.data" ∨ ns.1 = ".rela.rodata") ∧
        ∃ k, k < ns.2.size / (if ns.2.entsize = 0 then 24 else ns.2.entsize) ∧
          u64le elf_data
            (ns.2.offset + k * (if ns.2.entsize = 0 then 24 else ns.2.entsize)) = t ∧
          u64le elf_data
            (ns.2.offset + k * (if ns.2.entsize = 0 then 24 else ns.2.entsize) + 8) %
            4294967296 = 2 := by
  refine ⟨sections.flatMap (fun ns =>
      if ns.2.shType = 4 ∧ (ns.1 = ".rela.data" ∨ ns.1 = ".rela.rodata") then
        relaSectionOffsets elf_data ns.2
      else []), ?_, ?_⟩
  · unfold read_elf_reloc_offsets
    rw [if_pos hmach]
  · intro t
    rw [List.mem_flatMap]
    constructor
    · rintro ⟨ns, hns, hmem⟩
      by_cases hP : ns.2.shType = 4 ∧ (ns.1 = ".rela.data" ∨ ns.1 = ".rela.rodata")
      · rw [if_pos hP] at hmem
        obtain ⟨hbd, he, hm⟩ := hwf ns hns hP.1 hP.2
        obtain ⟨k, hk⟩ := (mem_relaSectionOffsets hbd he hm).1 hmem
        exact ⟨ns, hns, hP.1, hP.2, k, hk⟩
      · rw [if_neg hP] at hmem
        cases hmem
    · rintro ⟨ns, hns, h4, hname, k, hk1, hk2, hk3⟩
      refine ⟨ns, hns, ?_⟩
      rw [if_pos ⟨h4, hname⟩]
      obtain ⟨hbd, he, hm⟩ := hwf ns hns h4 hname
      exact (mem_relaSectionOffsets hbd he hm).2 ⟨k, hk1, hk2, hk3⟩

/-! ## `setBytes` frame lemmas -/

theorem length_setBytes {bs data : List Nat} {off : Nat}
    (h : off + data.length ≤ bs.length) : (setBytes bs off data).length = bs.length := by
  unfold setBytes
  rw [List.length_append, List.length_append, List.length_take, List.length_drop]
  omega

theorem getD_setBytes {bs data : List Nat} {off : Nat} (j : Nat)
    (h : off + data.length ≤ bs.length) :
    (setBytes bs off data).getD j 0 =
      if off ≤ j ∧ j < off + data.length then data.getD (j - off) 0
      else bs.getD j 0 := by
  have hto : (bs.take off).length = off := by
    rw [List.length_take]
    omega
  have hto2 : (bs.take off ++ data).length = off + data.length := by
    rw [List.length_append, hto]
  unfold setBytes
  rw [List.getD_eq_getElem?_getD]
  by_cases h2 : j < off + data.length
  · rw [List.getElem?_append_left (by rw [hto2]; omega)]
    by_cases h1 : j < off
    · rw [if_neg (by omega), List.getElem?_append_left (by rw [hto]; omega),
        List.getElem?_take_of_lt h1, ← List.getD_eq_getElem?_getD]
    · rw [if_pos (by omega), List.getElem?_append_right (by rw [hto]; omega), hto,
        ← List.getD_eq_getElem?_getD]
  · rw [if_neg (by omega), List.getElem?_append_right (by rw [hto2]; omega), hto2,
      List.getElem?_drop,
      show off + data.length + (j - (off + data.length)) = j by omega,
      ← List.getD_eq_getElem?_getD]

theorem getD_setBytes_outside {bs data : List Nat} {off : Nat} (j : Nat)
    (h : off + data.length ≤ bs.length)
    (hd : j < off ∨ off + data.length ≤ j) :
    (setBytes bs off data).getD j 0 = bs.getD j 0 := by
  rw [getD_setBytes j h, if_neg (by omega)]

theorem u16le_setBytes_outside {bs data : List Nat} {off : Nat} (p : Nat)
    (h : off + data.length ≤ bs.length)
    (hd : p + 2 ≤ off ∨ off + data.length ≤ p) :
    u16le (setBytes bs off data) p = u16le bs p := by
  unfold u16le
  rw [getD_setBytes_outside p h (by omega), getD_setBytes_outside (p + 1) h (by omega)]

theorem u32le_setBytes_outside {bs data : List Nat} {off : Nat} (p : Nat)
    (h : off + data.length ≤ bs.length)
    (hd : p + 4 ≤ off ∨ off + data.length ≤ p) :
    u32le (setBytes bs off data) p = u32le bs p := by
  unfold u32le
  rw [getD_setBytes_outside p h (by omega), getD_setBytes_outside (p + 1) h (by omega),
    getD_setBytes_outside (p + 2) h (by omega),
    getD_setBytes_outside (p + 3) h (by omega)]

theorem getD_bytesOfU32 (v : Nat) :
    (bytesOfU32 v).getD 0 0 = v % 256 ∧ (bytesOfU32 v).getD 1 0 = v / 256 % 256 ∧
    (bytesOfU32 v).getD 2 0 = v / 65536 % 256 ∧
    (bytesOfU32 v).getD 3 0 = v / 16777216 % 256 :=
  ⟨rfl, rfl, rfl, rfl⟩

theorem u32le_setBytes_same {bs : List Nat} {off v : Nat} (h : off + 4 ≤ bs.length) :
    u32le (setBytes bs off (bytesOfU32 v)) off = v % 4294967296 := by
  have hl : (bytesOfU32 v).length = 4 := rfl
  have hset : off + (bytesOfU32 v).length ≤ bs.length := by rw [hl]; omega
  unfold u32le
  rw [getD_setBytes off hset, getD_setBytes (off + 1) hset, getD_setBytes (off + 2) hset,
    getD_setBytes (off + 3) hset]
  rw [if_pos (by rw [hl]; omega), if_pos (by rw [hl]; omega),
    if_pos (by rw [hl]; omega), if_pos (by rw [hl]; omega)]
  rw [show off - off = 0 by omega, show off + 1 - off = 1 by omega,
    show off + 2 - off = 2 by omega, show off + 3 - off = 3 by omega]
  rw [(getD_bytesOfU32 v).1, (getD_bytesOfU32 v).2.1, (getD_bytesOfU32 v).2.2.1,
    (getD_bytesOfU32 v).2.2.2]
  omega

theorem u16le_setBytes_same {bs : List Nat} {off v : Nat} (h : off + 2 ≤ bs.length) :
    u16le (setBytes bs off (bytesOfU16 v)) off = v % 65536 := by
  have hl : (bytesOfU16 v).length = 2 := rfl
  have hset : off + (bytesOfU16 v).length ≤ bs.length := by rw [hl]; omega
  unfold u16le
  rw [getD_setBytes off hset, getD_setBytes (off + 1) hset]
  rw [if_pos (by rw [hl]; omega), if_pos (by rw [hl]; omega)]
  rw [show off - off = 0 by omega, show off + 1 - off = 1 by omega]
  rw [show (bytesOfU16 v).getD 0 0 = v % 256 from rfl,
    show (bytesOfU16 v).getD 1 0 = v / 256 % 256 from rfl]
  omega

theorem readBytes_eq_of_getD {bs : List Nat} {off n : Nat} {data : List Nat}
    (hn : data.length = n) (hb : off + n ≤ bs.length)
    (h : ∀ t, t < n → bs.getD (off + t) 0 = data.getD t 0) :
    readBytes bs off n = data := by
  have hlen : (readBytes bs off n).length = n := by
    unfold readBytes
    rw [List.length_take, List.length_drop]
    omega
  apply List.ext_getElem (by rw [hlen, hn])
  intro i h1 h2
  have hi : i < n := by rw [hlen] at h1; exact h1
  have e1 : (readBytes bs off n)[i] = (readBytes bs off n).getD i 0 := by
    rw [List.getD_eq_getElem?_getD, List.getElem?_eq_getElem h1]
    rfl
  have e2 : data[i] = data.getD i 0 := by
    rw [List.getD_eq_getElem?_getD, List.getElem?_eq_getElem h2]
    rfl
  rw [e1, e2, getD_readBytes hi, h i hi]

theorem getD_lt_256 {bs : List Nat} (hb : ∀ b ∈ bs, b < 256) (j : Nat) :
    bs.getD j 0 < 256 := by
  rw [List.getD_eq_getElem?_getD]
  cases hq : bs[j]? with
  | none => simp
  | some b =>
    have hmem : b ∈ bs := List.getElem?_mem hq
    simpa using hb b hmem

theorem getD_replicate_zero (n j : Nat) : (List.replicate n (0 : Nat)).getD j 0 = 0 := by
  rw [List.getD_eq_getElem?_getD, List.getElem?_replicate]
  split <;> rfl

theorem u32le_lt {bs : List Nat} (hb : ∀ b ∈ bs, b < 256) (p : Nat) :
    u32le bs p < 4294967296 := by
  unfold u32le
  have h0 := getD_lt_256 hb p
  have h1 := getD_lt_256 hb (p + 1)
  have h2 := getD_lt_256 hb (p + 2)
  have h3 := getD_lt_256 hb (p + 3)
  omega

theorem u16le_lt {bs : List Nat} (hb : ∀ b ∈ bs, b < 256) (p : Nat) :
    u16le bs p < 65536 := by
  unfold u16le
  have h0 := getD_lt_256 hb p
  have h1 := getD_lt_256 hb (p + 1)
  omega

theorem foldl_reloc_find : ∀ (l : List PESection) (acc : Option PESection)
    (s : PESection),
    l.foldl (fun acc x => if x.name = relocNameBytes then some x else acc) acc =
      some s →
    acc = some s ∨ (s ∈ l ∧ s.name = relocNameBytes) := by
  intro l
  induction l with
  | nil => exact fun acc s h => Or.inl h
  | cons x l ih =>
    intro acc s h
    rw [List.foldl_cons] at h
    rcases ih _ s h with hacc | hmem
    · by_cases hx : x.name = relocNameBytes
      · rw [if_pos hx] at hacc
        have hxs : x = s := by
          injection hacc
        exact Or.inr ⟨hxs ▸ List.mem_cons_self _ _, hxs ▸ hx⟩
      · rw [if_neg hx] at hacc
        exact Or.inl hacc
    · exact Or.inr ⟨List.mem_cons_of_mem _ hmem.1, hmem.2⟩

theorem findRelocSec_mem {pe : List Nat} {sec : PESection}
    (h : findRelocSec pe = some sec) :
    sec ∈ peSections pe ∧ sec.name = relocNameBytes := by
  rcases foldl_reloc_find (peSections pe) none sec h with hacc | hmem
  · cases hacc
  · exact hmem

theorem peSections_index {pe : List Nat} {sec : PESection}
    (h : sec ∈ peSections pe) :
    ∃ i, i < peNumSections pe ∧ sec = parsePESection pe (secTableOff pe + i * 40) := by
  unfold peSections at h
  rw [List.mem_map] at h
  obtain ⟨i, hir, he⟩ := h
  rw [List.mem_range] at hir
  exact ⟨i, hir, he.symm⟩

/-- Full specification of the replace-existing-section path of `patch_pe`. -/
theorem patchReplace_spec (pe reloc_data : List Nat) (sec : PESection)
    (hsig : readBytes pe (peSigOff pe) 4 = [0x50, 0x45, 0, 0])
    (hmagic : u16le pe (optOff pe) = 0x20B)
    (hsec : findRelocSec pe = some sec)
    (hfits : reloc_data.length ≤ sec.raw_size)
    (hopt : 160 ≤ peOptHdrSize pe)
    (hro : secTableOff pe + 40 * peNumSections pe ≤ sec.raw_offset)
    (hin : sec.raw_offset + sec.raw_size ≤ pe.length)
    (hlen32 : reloc_data.length < 4294967296)
    (hbytes : ∀ b ∈ pe, b < 256) :
    patch_pe pe reloc_data = Except.ok (patchReplaceSection pe reloc_data sec) ∧
    (patchReplaceSection pe reloc_data sec).length = pe.length ∧
    (∀ j, ¬ (sec.raw_offset ≤ j ∧ j < sec.raw_offset + sec.raw_size) →
      ¬ (sec.header_off + 8 ≤ j ∧ j < sec.header_off + 12) →
      ¬ (dd5Off pe ≤ j ∧ j < dd5Off pe + 8) →
      ¬ (coffCharsOff pe ≤ j ∧ j < coffCharsOff pe + 2) →
      (patchReplaceSection pe reloc_data sec).getD j 0 = pe.getD j 0) ∧
    readBytes (patchReplaceSection pe reloc_data sec) sec.raw_offset
      reloc_data.length = reloc_data ∧
    (∀ t, reloc_data.length ≤ t → t < sec.raw_size →
      (patchReplaceSection pe reloc_data sec).getD (sec.raw_offset + t) 0 = 0) ∧
    u32le (patchReplaceSection pe reloc_data sec) (sec.header_off + 8) =
      reloc_data.length ∧
    u32le (patchReplaceSection pe reloc_data sec) (sec.header_off + 16) =
      sec.raw_size ∧
    u32le (patchReplaceSection pe reloc_data sec) (sec.header_off + 12) =
      sec.virtual_address ∧
    u32le (patchReplaceSection pe reloc_data sec) (sec.header_off + 20) =
      sec.raw_offset ∧
    readBytes (patchReplaceSection pe reloc_data sec) sec.header_off 8 =
      readBytes pe sec.header_off 8 ∧
    u16le (patchReplaceSection pe reloc_data sec) (coffOff pe + 2) =
      peNumSections pe ∧
    (∀ i, i < peNumSections pe → secTableOff pe + i * 40 ≠ sec.header_off →
      readBytes (patchReplaceSection pe reloc_data sec) (secTableOff pe + i * 40) 40 =
        readBytes pe (secTableOff pe + i * 40) 40) ∧
    u32le (patchReplaceSection pe reloc_data sec) (dd5Off pe) =
      sec.virtual_address ∧
    u32le (patchReplaceSection pe reloc_data sec) (dd5Off pe + 4) =
      reloc_data.length ∧
    u16le (patchReplaceSection pe reloc_data sec) (coffCharsOff pe) =
      u16le pe (coffCharsOff pe) &&& 0xFFFE := by
  obtain ⟨hmem, -⟩ := findRelocSec_mem hsec
  obtain ⟨i, hi, hseci⟩ := peSections_index hmem
  have hho : sec.header_off = secTableOff pe + i * 40 := by
    rw [hseci]
    rfl
  have hg1 : coffOff pe + 20 ≤ secTableOff pe := by
    unfold secTableOff optOff
    omega
  have hg2 : dd5Off pe + 8 ≤ secTableOff pe := by
    unfold dd5Off secTableOff optOff
    omega
  have hcc : coffCharsOff pe = coffOff pe + 18 := rfl
  have hcc2 : coffCharsOff pe + 2 ≤ dd5Off pe := by
    unfold coffCharsOff dd5Off optOff
    omega
  have hg3 : sec.header_off + 40 ≤ secTableOff pe + 40 * peNumSections pe := by
    rw [hho]
    omega
  have hge : sec.header_off + 40 ≤ sec.raw_offset := by omega
  have hst_h : secTableOff pe ≤ sec.header_off := by rw [hho]; omega
  have hvabound : sec.virtual_address < 4294967296 := by
    rw [hseci]
    exact u32le_lt hbytes _
  have hva_eq : sec.virtual_address = u32le pe (sec.header_off + 12) := by
    rw [hseci]
    rfl
  have hrs_eq : sec.raw_size = u32le pe (sec.header_off + 16) := by
    rw [hseci]
    rfl
  have hroff_eq : sec.raw_offset = u32le pe (sec.header_off + 20) := by
    rw [hseci]
    rfl
  -- the write chain
  set pe1 := setBytes pe sec.raw_offset reloc_data with hpe1
  set pe2 := setBytes pe1 (sec.raw_offset + reloc_data.length)
    (List.replicate (sec.raw_size - reloc_data.length) 0) with hpe2
  set pe3 := setBytes pe2 (sec.header_off + 8) (bytesOfU32 reloc_data.length) with hpe3
  set pe4 := setBytes pe3 (dd5Off pe) (bytesOfU32 sec.virtual_address) with hpe4
  set pe5 := setBytes pe4 (dd5Off pe + 4) (bytesOfU32 reloc_data.length) with hpe5
  set out := setBytes pe5 (coffCharsOff pe)
    (bytesOfU16 (u16le pe5 (coffCharsOff pe) &&& 0xFFFE)) with hout
  have hpr : patchReplaceSection pe reloc_data sec = out := rfl
  -- lengths
  have hB1 : sec.raw_offset + reloc_data.length ≤ pe.length := by omega
  have hL1 : pe1.length = pe.length := length_setBytes hB1
  have hB2 : sec.raw_offset + reloc_data.length +
      (List.replicate (sec.raw_size - reloc_data.length) (0 : Nat)).length ≤
      pe1.length := by
    rw [hL1, List.length_replicate]
    omega
  have hL2 : pe2.length = pe.length := by rw [hpe2, length_setBytes hB2, hL1]
  have hB3 : sec.header_off + 8 + (bytesOfU32 reloc_data.length).length ≤
      pe2.length := by
    rw [hL2, show (bytesOfU32 reloc_data.length).length = 4 from rfl]
    omega
  have hL3 : pe3.length = pe.length := by rw [hpe3, length_setBytes hB3, hL2]
  have hB4 : dd5Off pe + (bytesOfU32 sec.virtual_address).length ≤ pe3.length := by
    rw [hL3, show (bytesOfU32 sec.virtual_address).length = 4 from rfl]
    omega
  have hL4 : pe4.length = pe.length := by rw [hpe4, length_setBytes hB4, hL3]
  have hB5 : dd5Off pe + 4 + (bytesOfU32 reloc_data.length).length ≤ pe4.length := by
    rw [hL4, show (bytesOfU32 reloc_data.length).length = 4 from rfl]
    omega
  have hL5 : pe5.length = pe.length := by rw [hpe5, length_setBytes hB5, hL4]
  have hB6 : coffCharsOff pe +
      (bytesOfU16 (u16le pe5 (coffCharsOff pe) &&& 0xFFFE)).length ≤ pe5.length := by
    rw [hL5, show (bytesOfU16 (u16le pe5 (coffCharsOff pe) &&& 0xFFFE)).length = 2
      from rfl]
    omega
  have hLout : out.length = pe.length := by rw [hout, length_setBytes hB6, hL5]
  -- byte-level frame
  have hframe : ∀ j, ¬ (sec.raw_offset ≤ j ∧ j < sec.raw_offset + sec.raw_size) →
      ¬ (sec.header_off + 8 ≤ j ∧ j < sec.header_off + 12) →
      ¬ (dd5Off pe ≤ j ∧ j < dd5Off pe + 8) →
      ¬ (coffCharsOff pe ≤ j ∧ j < coffCharsOff pe + 2) →
      out.getD j 0 = pe.getD j 0 := by
    intro j hj1 hj2 hj3 hj4
    rw [hout, getD_setBytes_outside j hB6 (by
      rw [show (bytesOfU16 (u16le pe5 (coffCharsOff pe) &&& 0xFFFE)).length = 2
        from rfl]
      omega)]
    rw [hpe5, getD_setBytes_outside j hB5 (by
      rw [show (bytesOfU32 reloc_data.length).length = 4 from rfl]
      omega)]
    rw [hpe4, getD_setBytes_outside j hB4 (by
      rw [show (bytesOfU32 sec.virtual_address).length = 4 from rfl]
      omega)]
    rw [hpe3, getD_setBytes_outside j hB3 (by
      rw [show (bytesOfU32 reloc_data.length).length = 4 from rfl]
      omega)]
    rw [hpe2, getD_setBytes_outside j hB2 (by
      rw [List.length_replicate]
      omega)]
    rw [hpe1, getD_setBytes_outside j hB1 (by omega)]
  refine ⟨?_, hpr ▸ hLout, hpr ▸ hframe, ?_, ?_, ?_, ?_, ?_, ?_, ?_, ?_, ?_, ?_, ?_, ?_⟩
  · unfold patch_pe
    rw [if_pos hsig, if_pos hmagic, hsec]
    dsimp only
    rw [if_pos hfits, hpr]
  · -- content
    rw [hpr]
    apply readBytes_eq_of_getD rfl (by omega)
    intro t ht
    rw [hout, getD_setBytes_outside _ hB6 (by
      rw [show (bytesOfU16 (u16le pe5 (coffCharsOff pe) &&& 0xFFFE)).length = 2
        from rfl]
      omega)]
    rw [hpe5, getD_setBytes_outside _ hB5 (by
      rw [show (bytesOfU32 reloc_data.length).length = 4 from rfl]
      omega)]
    rw [hpe4, getD_setBytes_outside _ hB4 (by
      rw [show (bytesOfU32 sec.virtual_address).length = 4 from rfl]
      omega)]
    rw [hpe3, getD_setBytes_outside _ hB3 (by
      rw [show (bytesOfU32 reloc_data.length).length = 4 from rfl]
      omega)]
    rw [hpe2, getD_setBytes_outside _ hB2 (by
      rw [List.length_replicate]
      omega)]
    rw [hpe1, getD_setBytes _ hB1, if_pos (by omega),
      show sec.raw_offset + t - sec.raw_offset = t by omega]
  · -- zero fill
    intro t ht1 ht2
    rw [hpr]
    rw [hout, getD_setBytes_outside _ hB6 (by
      rw [show (bytesOfU16 (u16le pe5 (coffCharsOff pe) &&& 0xFFFE)).length = 2
        from rfl]
      omega)]
    rw [hpe5, getD_setBytes_outside _ hB5 (by
      rw [show (bytesOfU32 reloc_data.length).length = 4 from rfl]
      omega)]
    rw [hpe4, getD_setBytes_outside _ hB4 (by
      rw [show (bytesOfU32 sec.virtual_address).length = 4 from rfl]
      omega)]
    rw [hpe3, getD_setBytes_outside _ hB3 (by
      rw [show (bytesOfU32 reloc_data.length).length = 4 from rfl]
      omega)]
    rw [hpe2, getD_setBytes _ hB2, if_pos (by rw [List.length_replicate]; omega),
      getD_replicate_zero]
  · -- virtual-size field := table length
    rw [hpr]
    rw [hout, u32le_setBytes_outside _ hB6 (by
      rw [show (bytesOfU16 (u16le pe5 (coffCharsOff pe) &&& 0xFFFE)).length = 2
        from rfl]
      omega)]
    rw [hpe5, u32le_setBytes_outside _ hB5 (by
      rw [show (bytesOfU32 reloc_data.length).length = 4 from rfl]
      omega)]
    rw [hpe4, u32le_setBytes_outside _ hB4 (by
      rw [show (bytesOfU32 sec.virtual_address).length = 4 from rfl]
      omega)]
    rw [hpe3, u32le_setBytes_same (by rw [hL2]; omega)]
    omega
  · -- raw-size field unchanged
    have := hframe (sec.header_off + 16)
    rw [hrs_eq, hpr]
    unfold u32le
    rw [hframe (sec.header_off + 16) (by omega) (by omega) (by omega) (by omega),
      hframe (sec.header_off + 16 + 1) (by omega) (by omega) (by omega) (by omega),
      hframe (sec.header_off + 16 + 2) (by omega) (by omega) (by omega) (by omega),
      hframe (sec.header_off + 16 + 3) (by omega) (by omega) (by omega) (by omega)]
  · -- virtual-address field unchanged
    rw [hva_eq, hpr]
    unfold u32le
    rw [hframe (sec.header_off + 12) (by omega) (by omega) (by omega) (by omega),
      hframe (sec.header_off + 12 + 1) (by omega) (by omega) (by omega) (by omega),
      hframe (sec.header_off + 12 + 2) (by omega) (by omega) (by omega) (by omega),
      hframe (sec.header_off + 12 + 3) (by omega) (by omega) (by omega) (by omega)]
  · -- raw-offset field unchanged
    rw [hroff_eq, hpr]
    unfold u32le
    rw [hframe (sec.header_off + 20) (by omega) (by omega) (by omega) (by omega),
      hframe (sec.header_off + 20 + 1) (by omega) (by omega) (by omega) (by omega),
      hframe (sec.header_off + 20 + 2) (by omega) (by omega) (by omega) (by omega),
      hframe (sec.header_off + 20 + 3) (by omega) (by omega) (by omega) (by omega)]
  · -- name bytes unchanged
    rw [hpr]
    apply readBytes_eq_of_getD (by
      unfold readBytes
      rw [List.length_take, List.length_drop]
      omega) (by rw [hLout]; omega)
    intro t ht
    rw [getD_readBytes ht,
      hframe (sec.header_off + t) (by omega) (by omega) (by omega) (by omega)]
  · -- section count unchanged
    rw [hpr]
    show u16le out (coffOff pe + 2) = peNumSections pe
    unfold u16le
    rw [hframe (coffOff pe + 2) (by omega) (by omega) (by omega) (by omega),
      hframe (coffOff pe + 2 + 1) (by omega) (by omega) (by omega) (by omega)]
    rfl
  · -- other section headers unchanged
    intro i2 hi2 hne
    rw [hpr]
    apply readBytes_eq_of_getD (by
      unfold readBytes
      rw [List.length_take, List.length_drop]
      have : secTableOff pe + i2 * 40 + 40 ≤ secTableOff pe + 40 * peNumSections pe := by
        omega
      omega) (by
      rw [hLout]
      have : secTableOff pe + i2 * 40 + 40 ≤ secTableOff pe + 40 * peNumSections pe := by
        omega
      omega)
    intro t ht
    have hsep : secTableOff pe + i2 * 40 + 40 ≤ sec.header_off ∨
        sec.header_off + 40 ≤ secTableOff pe + i2 * 40 := by
      have hne2 : i2 ≠ i := fun he => hne (by rw [he, hho])
      rw [hho]
      rcases Nat.lt_or_ge i2 i with hlt | hgt
      · left
        omega
      · right
        have hgt2 : i < i2 := by omega
        omega
    rw [getD_readBytes ht,
      hframe (secTableOff pe + i2 * 40 + t)
        (by
          have : secTableOff pe + i2 * 40 + 40 ≤ secTableOff pe +
            40 * peNumSections pe := by omega
          omega)
        (by omega) (by omega) (by omega)]
  · -- data directory address := section VA
    rw [hpr]
    rw [hout, u32le_setBytes_outside _ hB6 (by
      rw [show (bytesOfU16 (u16le pe5 (coffCharsOff pe) &&& 0xFFFE)).length = 2
        from rfl]
      omega)]
    rw [hpe5, u32le_setBytes_outside _ hB5 (by
      rw [show (bytesOfU32 reloc_data.length).length = 4 from rfl]
      omega)]
    rw [hpe4, u32le_setBytes_same (by rw [hL3]; omega)]
    omega
  · -- data directory size := table length
    rw [hpr]
    rw [hout, u32le_setBytes_outside _ hB6 (by
      rw [show (bytesOfU16 (u16le pe5 (coffCharsOff pe) &&& 0xFFFE)).length = 2
        from rfl]
      omega)]
    rw [hpe5, u32le_setBytes_same (by rw [hL4]; omega)]
    omega
  · -- relocations-stripped bit cleared
    rw [hpr]
    have hchain : u16le pe5 (coffCharsOff pe) = u16le pe (coffCharsOff pe) := by
      rw [hpe5, u16le_setBytes_outside _ hB5 (by
        rw [show (bytesOfU32 reloc_data.length).length = 4 from rfl]
        omega)]
      rw [hpe4, u16le_setBytes_outside _ hB4 (by
        rw [show (bytesOfU32 sec.virtual_address).length = 4 from rfl]
        omega)]
      rw [hpe3, u16le_setBytes_outside _ hB3 (by
        rw [show (bytesOfU32 reloc_data.length).length = 4 from rfl]
        omega)]
      rw [hpe2, u16le_setBytes_outside _ hB2 (by
        rw [List.length_replicate]
        omega)]
      rw [hpe1, u16le_setBytes_outside _ hB1 (by omega)]
    rw [hout, u16le_setBytes_same (by rw [hL5]; omega), hchain]
    have hlt : u16le pe (coffCharsOff pe) < 65536 := u16le_lt hbytes _
    have hle : u16le pe (coffCharsOff pe) &&& 0xFFFE ≤ u16le pe (coffCharsOff pe) :=
      Nat.and_le_left
    exact Nat.mod_eq_of_lt (by omega)

theorem getD_append_left' {a b : List Nat} {j : Nat} (h : j < a.length) :
    (a ++ b).getD j 0 = a.getD j 0 := by
  rw [List.getD_eq_getElem?_getD, List.getElem?_append_left h,
    ← List.getD_eq_getElem?_getD]

theorem u32le_append_left {a b : List Nat} {p : Nat} (h : p + 4 ≤ a.length) :
    u32le (a ++ b) p = u32le a p := by
  unfold u32le
  rw [getD_append_left' (by omega), getD_append_left' (by omega),
    getD_append_left' (by omega), getD_append_left' (by omega)]

theorem u32le_setBytes_inside {bs data : List Nat} {off : Nat} (d : Nat)
    (h : off + data.length ≤ bs.length) (hd : d + 4 ≤ data.length) :
    u32le (setBytes bs off data) (off + d) = u32le data d := by
  unfold u32le
  rw [getD_setBytes (off + d) h, getD_setBytes (off + d + 1) h,
    getD_setBytes (off + d + 2) h, getD_setBytes (off + d + 3) h]
  rw [if_pos (by omega), if_pos (by omega), if_pos (by omega), if_pos (by omega)]
  rw [show off + d - off = d by omega, show off + d + 1 - off = d + 1 by omega,
    show off + d + 2 - off = d + 2 by omega, show off + d + 3 - off = d + 3 by omega]

/-- Specification of the fields the append-new-section path writes into the
header area: SizeOfImage becomes `new_rva + PE_SECTION_ALIGNMENT` (one single
section alignment past the new section's RVA, regardless of the table
length), data directory 5 points at `new_rva`, and the new section header
records the exact table length as its virtual size. -/
theorem patchAppend_fields (pe reloc_data : List Nat) (s0 last : PESection)
    (rest : List PESection) (new_rva : Nat)
    (hsig : readBytes pe (peSigOff pe) 4 = [0x50, 0x45, 0, 0])
    (hmagic : u16le pe (optOff pe) = 0x20B)
    (hnone : findRelocSec pe = none)
    (hps : peSections pe = s0 :: rest)
    (hlast : last = rest.foldl
      (fun acc s => if s.virtual_address > acc.virtual_address then s else acc) s0)
    (hrva : new_rva = (last.virtual_address + max last.virtual_size last.raw_size +
      PE_SECTION_ALIGNMENT - 1) / PE_SECTION_ALIGNMENT * PE_SECTION_ALIGNMENT)
    (hopt : 160 ≤ peOptHdrSize pe)
    (hroom : secTableOff pe + peNumSections pe * 40 + 40 ≤
      u32le pe (sizeOfHeadersOff pe))
    (hhend : secTableOff pe + peNumSections pe * 40 + 40 ≤ pe.length)
    (hrva32 : new_rva + PE_SECTION_ALIGNMENT < 4294967296)
    (hlen32 : reloc_data.length < 4294967296) :
    (patch_pe pe reloc_data).map (fun out => u32le out (sizeOfImageOff pe)) =
      Except.ok (new_rva + PE_SECTION_ALIGNMENT) ∧
    (patch_pe pe reloc_data).map (fun out => u32le out (dd5Off pe)) =
      Except.ok new_rva ∧
    (patch_pe pe reloc_data).map
        (fun out => u32le out (secTableOff pe + peNumSections pe * 40 + 8)) =
      Except.ok reloc_data.length := by
  have hg1 : coffOff pe + 20 ≤ secTableOff pe := by
    unfold secTableOff optOff
    omega
  have hg2 : dd5Off pe + 8 ≤ secTableOff pe := by
    unfold dd5Off secTableOff optOff
    omega
  have hsio : sizeOfImageOff pe = coffOff pe + 76 := rfl
  have hcc : coffCharsOff pe = coffOff pe + 18 := rfl
  have hdd : dd5Off pe = coffOff pe + 172 := rfl
  have hsio4 : sizeOfImageOff pe + 4 ≤ dd5Off pe := by rw [hsio, hdd]; omega
  set nro := (pe.length + PE_FILE_ALIGNMENT - 1) / PE_FILE_ALIGNMENT *
    PE_FILE_ALIGNMENT with hnro
  set raw_size := (reloc_data.length + PE_FILE_ALIGNMENT - 1) / PE_FILE_ALIGNMENT *
    PE_FILE_ALIGNMENT with hraws
  set header := [0x2E, 0x72, 0x65, 0x6C, 0x6F, 0x63, 0, 0] ++
    bytesOfU32 reloc_data.length ++ bytesOfU32 new_rva ++ bytesOfU32 raw_size ++
    bytesOfU32 nro ++ List.replicate 12 0 ++ bytesOfU32 0x42000040 with hheader
  have hhl : header.length = 40 := by rw [hheader]; rfl
  set pe1 := setBytes pe (secTableOff pe + peNumSections pe * 40) header with hpe1
  set pe2 := setBytes pe1 (coffOff pe + 2) (bytesOfU16 (peNumSections pe + 1))
    with hpe2
  set pe3 := setBytes pe2 (sizeOfImageOff pe)
    (bytesOfU32 (new_rva + PE_SECTION_ALIGNMENT)) with hpe3
  set pe4 := setBytes pe3 (dd5Off pe) (bytesOfU32 new_rva) with hpe4
  set pe5 := setBytes pe4 (dd5Off pe + 4) (bytesOfU32 reloc_data.length) with hpe5
  set pe6 := setBytes pe5 (coffCharsOff pe)
    (bytesOfU16 (u16le pe5 (coffCharsOff pe) &&& 0xFFFE)) with hpe6
  set pe7 := if pe6.length < nro then pe6 ++ List.replicate (nro - pe6.length) 0
    else pe6 with hpe7
  have hB1 : secTableOff pe + peNumSections pe * 40 + header.length ≤ pe.length := by
    rw [hhl]
    omega
  have hL1 : pe1.length = pe.length := length_setBytes hB1
  have hB2 : coffOff pe + 2 + (bytesOfU16 (peNumSections pe + 1)).length ≤
      pe1.length := by
    rw [hL1, show (bytesOfU16 (peNumSections pe + 1)).length = 2 from rfl]
    omega
  have hL2 : pe2.length = pe.length := by rw [hpe2, length_setBytes hB2, hL1]
  have hB3 : sizeOfImageOff pe +
      (bytesOfU32 (new_rva + PE_SECTION_ALIGNMENT)).length ≤ pe2.length := by
    rw [hL2, show (bytesOfU32 (new_rva + PE_SECTION_ALIGNMENT)).length = 4 from rfl,
      hsio]
    omega
  have hL3 : pe3.length = pe.length := by rw [hpe3, length_setBytes hB3, hL2]
  have hB4 : dd5Off pe + (bytesOfU32 new_rva).length ≤ pe3.length := by
    rw [hL3, show (bytesOfU32 new_rva).length = 4 from rfl]
    omega
  have hL4 : pe4.length = pe.length := by rw [hpe4, length_setBytes hB4, hL3]
  have hB5 : dd5Off pe + 4 + (bytesOfU32 reloc_data.length).length ≤ pe4.length := by
    rw [hL4, show (bytesOfU32 reloc_data.length).length = 4 from rfl]
    omega
  have hL5 : pe5.length = pe.length := by rw [hpe5, length_setBytes hB5, hL4]
  have hB6 : coffCharsOff pe +
      (bytesOfU16 (u16le pe5 (coffCharsOff pe) &&& 0xFFFE)).length ≤ pe5.length := by
    rw [hL5, show (bytesOfU16 (u16le pe5 (coffCharsOff pe) &&& 0xFFFE)).length = 2
      from rfl, hcc]
    omega
  have hL6 : pe6.length = pe.length := by rw [hpe6, length_setBytes hB6, hL5]
  have hL7 : pe.length ≤ pe7.length := by
    rw [hpe7]
    split
    · rw [List.length_append, hL6]
      omega
    · rw [hL6]
  have h7read : ∀ p, p + 4 ≤ pe.length → u32le pe7 p = u32le pe6 p := by
    intro p hp
    rw [hpe7]
    split
    · exact u32le_append_left (by rw [hL6]; omega)
    · rfl
  have hrun : patch_pe pe reloc_data =
      Except.ok (pe7 ++ reloc_data ++ List.replicate (raw_size - reloc_data.length) 0) := by
    unfold patch_pe
    rw [if_pos hsig, if_pos hmagic, hnone]
    dsimp only
    unfold patchAppendNewSection
    rw [hps]
    dsimp only
    rw [← hraws, ← hnro, ← hlast, ← hrva, ← hheader]
    rw [if_neg (by omega)]
  have hh8 : u32le header 8 = reloc_data.length % 4294967296 := by
    rw [hheader]
    rw [show ([0x2E, 0x72, 0x65, 0x6C, 0x6F, 0x63, 0, 0] ++
        bytesOfU32 reloc_data.length ++ bytesOfU32 new_rva ++ bytesOfU32 raw_size ++
        bytesOfU32 nro ++ List.replicate 12 0 ++ bytesOfU32 0x42000040 : List Nat) =
      [0x2E, 0x72, 0x65, 0x6C, 0x6F, 0x63, 0, 0] ++
        (bytesOfU32 reloc_data.length ++ (bytesOfU32 new_rva ++ (bytesOfU32 raw_size ++
        (bytesOfU32 nro ++ (List.replicate 12 0 ++ bytesOfU32 0x42000040)))))
      from by simp [List.append_assoc]]
    rw [← u32le_drop,
      List.drop_left' (show ([0x2E, 0x72, 0x65, 0x6C, 0x6F, 0x63, 0, 0] :
        List Nat).length = 8 from rfl)]
    exact u32le_bytesOfU32 _ _
  refine ⟨?_, ?_, ?_⟩
  · rw [hrun]
    show Except.ok (u32le (pe7 ++ reloc_data ++
      List.replicate (raw_size - reloc_data.length) 0) (sizeOfImageOff pe)) = _
    have hb : sizeOfImageOff pe + 4 ≤ pe.length := by
      rw [hsio]
      omega
    rw [u32le_append_left (by
        rw [List.length_append]
        omega),
      u32le_append_left (by omega),
      h7read _ hb]
    rw [hpe6, u32le_setBytes_outside _ hB6 (by
      rw [show (bytesOfU16 (u16le pe5 (coffCharsOff pe) &&& 0xFFFE)).length = 2
        from rfl, hcc, hsio]
      omega)]
    rw [hpe5, u32le_setBytes_outside _ hB5 (by
      rw [show (bytesOfU32 reloc_data.length).length = 4 from rfl]
      omega)]
    rw [hpe4, u32le_setBytes_outside _ hB4 (by
      rw [show (bytesOfU32 new_rva).length = 4 from rfl]
      omega)]
    rw [hpe3, u32le_setBytes_same (by rw [hL2, hsio]; omega)]
    rw [Nat.mod_eq_of_lt hrva32]
  · rw [hrun]
    show Except.ok (u32le (pe7 ++ reloc_data ++
      List.replicate (raw_size - reloc_data.length) 0) (dd5Off pe)) = _
    have hb : dd5Off pe + 4 ≤ pe.length := by
      omega
    rw [u32le_append_left (by
        rw [List.length_append]
        omega),
      u32le_append_left (by omega),
      h7read _ hb]
    rw [hpe6, u32le_setBytes_outside _ hB6 (by
      rw [show (bytesOfU16 (u16le pe5 (coffCharsOff pe) &&& 0xFFFE)).length = 2
        from rfl, hcc, hdd]
      omega)]
    rw [hpe5, u32le_setBytes_outside _ hB5 (by
      rw [show (bytesOfU32 reloc_data.length).length = 4 from rfl]
      omega)]
    rw [hpe4, u32le_setBytes_same (by rw [hL3]; omega)]
    rw [Nat.mod_eq_of_lt (by omega)]
  · rw [hrun]
    show Except.ok (u32le (pe7 ++ reloc_data ++
      List.replicate (raw_size - reloc_data.length) 0)
        (secTableOff pe + peNumSections pe * 40 + 8)) = _
    have hb : secTableOff pe + peNumSections pe * 40 + 8 + 4 ≤ pe.length := by
      omega
    rw [u32le_append_left (by
        rw [List.length_append]
        omega),
      u32le_append_left (by omega),
      h7read _ hb]
    rw [hpe6, u32le_setBytes_outside _ hB6 (by
      rw [show (bytesOfU16 (u16le pe5 (coffCharsOff pe) &&& 0xFFFE)).length = 2
        from rfl, hcc]
      omega)]
    rw [hpe5, u32le_setBytes_outside _ hB5 (by
      rw [show (bytesOfU32 reloc_data.length).length = 4 from rfl]
      omega)]
    rw [hpe4, u32le_setBytes_outside _ hB4 (by
      rw [show (bytesOfU32 new_rva).length = 4 from rfl]
      omega)]
    rw [hpe3, u32le_setBytes_outside _ hB3 (by
      rw [show (bytesOfU32 (new_rva + PE_SECTION_ALIGNMENT)).length = 4 from rfl,
        hsio]
      omega)]
    rw [hpe2, u32le_setBytes_outside _ hB2 (by
      rw [show (bytesOfU16 (peNumSections pe + 1)).length = 2 from rfl]
      omega)]
    rw [hpe1, u32le_setBytes_inside 8 hB1 (by rw [hhl]; omega), hh8,
      Nat.mod_eq_of_lt hlen32]

/-- C2 counterexample: on the concrete image `peR` (whose `.reloc` section has
raw size 16 and raw-data-size field at offset 0x108) and the 12-byte table
`tblR`, the in-place patch leaves the raw-data-size field at 16 instead of
updating it to the table length 12; the length lands in the virtual-size
field at offset 0x100 instead. -/
theorem C2_counterexample :
    patch_pe peR tblR = Except.ok (patchReplaceSection peR tblR secR) ∧
    tblR.length = 12 ∧
    u32le (patchReplaceSection peR tblR secR) (secR.header_off + 16) = 16 ∧
    u32le (patchReplaceSection peR tblR secR) (secR.header_off + 8) = 12 := by
  refine ⟨?_, by decide, by decide, by decide⟩
  exact (patchReplace_spec peR tblR secR (by decide) (by decide) (by decide)
    (by decide) (by decide) (by decide) (by decide) (by decide) (by decide)).1

/-- C2 amended: in the replace-existing-section path (a `.reloc` section
exists and the new table fits in its raw size), the patcher overwrites the
section's raw bytes with the table, zero-fills the remainder up to the old
raw size, and stores the new table's byte length in the section header's
VIRTUAL-SIZE field (offset +8); the raw-data-size field (offset +16) is left
unchanged. -/
theorem C2_replace_path (pe reloc_data : List Nat) (sec : PESection)
    (hsig : readBytes pe (peSigOff pe) 4 = [0x50, 0x45, 0, 0])
    (hmagic : u16le pe (optOff pe) = 0x20B)
    (hsec : findRelocSec pe = some sec)
    (hfits : reloc_data.length ≤ sec.raw_size)
    (hopt : 160 ≤ peOptHdrSize pe)
    (hro : secTableOff pe + 40 * peNumSections pe ≤ sec.raw_offset)
    (hin : sec.raw_offset + sec.raw_size ≤ pe.length)
    (hlen32 : reloc_data.length < 4294967296)
    (hbytes : ∀ b ∈ pe, b < 256) :
    patch_pe pe reloc_data = Except.ok (patchReplaceSection pe reloc_data sec) ∧
    readBytes (patchReplaceSection pe reloc_data sec) sec.raw_offset
      reloc_data.length = reloc_data ∧
    (∀ t, reloc_data.length ≤ t → t < sec.raw_size →
      (patchReplaceSection pe reloc_data sec).getD (sec.raw_offset + t) 0 = 0) ∧
    u32le (patchReplaceSection pe reloc_data sec) (sec.header_off + 8) =
      reloc_data.length ∧
    u32le (patchReplaceSection pe reloc_data sec) (sec.header_off + 16) =
      sec.raw_size := by
  obtain ⟨h1, -, -, h4, h5, h6, h7, -⟩ :=
    patchReplace_spec pe reloc_data sec hsig hmagic hsec hfits hopt hro hin
      hlen32 hbytes
  exact ⟨h1, h4, h5, h6, h7⟩

/-- C9: when a PE already contains a `.reloc` section whose raw size is at
least the new table's length, patching takes the in-place path: the buffer
length, the section count and every other section's full 40-byte header are
unchanged, the relocation section's own name, virtual address, raw size and
raw offset are unchanged, and every byte outside the section's raw-data
region, its header's virtual-size dword, the base-relocation data-directory
entry and the COFF characteristics word is unchanged. -/
theorem C9_replace_frame (pe reloc_data : List Nat) (sec : PESection)
    (hsig : readBytes pe (peSigOff pe) 4 = [0x50, 0x45, 0, 0])
    (hmagic : u16le pe (optOff pe) = 0x20B)
    (hsec : findRelocSec pe = some sec)
    (hfits : reloc_data.length ≤ sec.raw_size)
    (hopt : 160 ≤ peOptHdrSize pe)
    (hro : secTableOff pe + 40 * peNumSections pe ≤ sec.raw_offset)
    (hin : sec.raw_offset + sec.raw_size ≤ pe.length)
    (hlen32 : reloc_data.length < 4294967296)
    (hbytes : ∀ b ∈ pe, b < 256) :
    patch_pe pe reloc_data = Except.ok (patchReplaceSection pe reloc_data sec) ∧
    (patchReplaceSection pe reloc_data sec).length = pe.length ∧
    u16le (patchReplaceSection pe reloc_data sec) (coffOff pe + 2) =
      peNumSections pe ∧
    (∀ i, i < peNumSections pe → secTableOff pe + i * 40 ≠ sec.header_off →
      readBytes (patchReplaceSection pe reloc_data sec) (secTableOff pe + i * 40)
        40 = readBytes pe (secTableOff pe + i * 40) 40) ∧
    readBytes (patchReplaceSection pe reloc_data sec) sec.header_off 8 =
      readBytes pe sec.header_off 8 ∧
    u32le (patchReplaceSection pe reloc_data sec) (sec.header_off + 12) =
      sec.virtual_address ∧
    u32le (patchReplaceSection pe reloc_data sec) (sec.header_off + 16) =
      sec.raw_size ∧
    u32le (patchReplaceSection pe reloc_data sec) (sec.header_off + 20) =
      sec.raw_offset ∧
    (∀ j, ¬ (sec.raw_offset ≤ j ∧ j < sec.raw_offset + sec.raw_size) →
      ¬ (sec.header_off + 8 ≤ j ∧ j < sec.header_off + 12) →
      ¬ (dd5Off pe ≤ j ∧ j < dd5Off pe + 8) →
      ¬ (coffCharsOff pe ≤ j ∧ j < coffCharsOff pe + 2) →
      (patchReplaceSection pe reloc_data sec).getD j 0 = pe.getD j 0) := by
  obtain ⟨h1, h2, h3, -, -, -, h7, h8, h9, h10, h11, h12, -, -, -⟩ :=
    patchReplace_spec pe reloc_data sec hsig hmagic hsec hfits hopt hro hin
      hlen32 hbytes
  exact ⟨h1, h2, h11, h12, h10, h8, h7, h9, h3⟩

/-- C3 failing-input evaluation: on the concrete PE `peA` (no existing
`.reloc`, last section ending at RVA 0x1200, so the new section's RVA is
0x2000) and a relocation table of 0x1004 bytes, the append path records
virtual size 0x1004 for the new section but writes SizeOfImage
0x2000 + 0x1000 = 0x3000, which is smaller than the claimed bound
0x2000 + roundUp(0x1004, 0x1000) = 0x4000 — the new section is not fully
covered. -/
theorem C3_size_of_image_eval :
    tblA.length = 0x1004 ∧
    (patch_pe peA tblA).map (fun out => u32le out (sizeOfImageOff peA)) =
      Except.ok 0x3000 ∧
    (patch_pe peA tblA).map (fun out => u32le out (dd5Off peA)) =
      Except.ok 0x2000 ∧
    (patch_pe peA tblA).map
        (fun out => u32le out (secTableOff peA + peNumSections peA * 40 + 8)) =
      Except.ok 0x1004 ∧
    0x3000 < 0x2000 + (0x1004 + PE_SECTION_ALIGNMENT - 1) / PE_SECTION_ALIGNMENT *
      PE_SECTION_ALIGNMENT := by
  have hlenA : tblA.length = 0x1004 := by
    rw [show tblA = List.replicate 0x1004 0 from rfl, List.length_replicate]
  obtain ⟨h1, h2, h3⟩ := patchAppend_fields peA tblA (parsePESection peA 0xF8)
    (parsePESection peA 0xF8) [] 0x2000 (by decide) (by decide) (by decide)
    (by decide) (by decide) (by decide) (by decide) (by decide) (by decide)
    (by decide) (by rw [hlenA]; norm_num)
  rw [hlenA] at h3
  refine ⟨hlenA, ?_, ?_, h3, by decide⟩
  · rw [h1]; rfl
  · rw [h2]

theorem build_base_reloc_table_ne_nil {l : List Nat} (hl : l ≠ []) :
    build_base_reloc_table l ≠ [] := by
  have hne : relocPages l ≠ [] := by
    obtain ⟨r, hr⟩ := List.exists_mem_of_ne_nil l hl
    intro he
    have hmem := pageOf_mem_relocPages hr
    rw [he] at hmem
    exact absurd hmem (List.not_mem_nil _)
  intro he
  have hlen := length_flatten_blocks l (relocPages l)
  unfold build_base_reloc_table at he
  rw [List.flatMap_def] at he
  rw [he] at hlen
  simp only [List.length_nil, Nat.le_zero] at hlen
  exact hne (List.eq_nil_of_length_eq_zero hlen)

/-- C4: the destination is either fully patched or byte-for-byte unchanged —
`mainRun` either fails (the source raises before its single write, leaving
the destination untouched), returns the destination unchanged, or returns a
complete `patch_pe` result; the bad-ELF-magic, unsupported-machine,
bad-PE-signature, non-PE32+ and no-header-room fatal conditions each yield
an error, and an empty discovered offset set leaves the destination
untouched. -/
theorem C4_all_or_nothing (elf_data pe : List Nat) :
    ((∃ m, mainRun elf_data pe = Except.error m) ∨
      mainRun elf_data pe = Except.ok pe ∨
      (∃ tbl out, tbl ≠ [] ∧ patch_pe pe tbl = Except.ok out ∧
        mainRun elf_data pe = Except.ok out)) ∧
    (¬ (readBytes elf_data 0 4 = [0x7F, 0x45, 0x4C, 0x46] ∧
        elf_data.getD 4 0 = 2 ∧ elf_data.getD 5 0 = 1) →
      ∃ m, mainRun elf_data pe = Except.error m) ∧
    ((readBytes elf_data 0 4 = [0x7F, 0x45, 0x4C, 0x46] ∧
        elf_data.getD 4 0 = 2 ∧ elf_data.getD 5 0 = 1) →
      ¬ (u16le elf_data 18 = 0xF3 ∨ u16le elf_data 18 = 0x102) →
      ∃ m, mainRun elf_data pe = Except.error m) ∧
    (discoveredOffsets elf_data = Except.ok [] →
      mainRun elf_data pe = Except.ok pe) ∧
    (∀ l, discoveredOffsets elf_data = Except.ok l → l ≠ [] →
      ¬ readBytes pe (peSigOff pe) 4 = [0x50, 0x45, 0, 0] →
      ∃ m, mainRun elf_data pe = Except.error m) ∧
    (∀ l, discoveredOffsets elf_data = Except.ok l → l ≠ [] →
      readBytes pe (peSigOff pe) 4 = [0x50, 0x45, 0, 0] →
      ¬ u16le pe (optOff pe) = 0x20B →
      ∃ m, mainRun elf_data pe = Except.error m) ∧
    (∀ l s0 rest, discoveredOffsets elf_data = Except.ok l → l ≠ [] →
      readBytes pe (peSigOff pe) 4 = [0x50, 0x45, 0, 0] →
      u16le pe (optOff pe) = 0x20B →
      findRelocSec pe = none →
      peSections pe = s0 :: rest →
      secTableOff pe + peNumSections pe * 40 + 40 >
        u32le pe (sizeOfHeadersOff pe) →
      ∃ m, mainRun elf_data pe = Except.error m) := by
  refine ⟨?_, ?_, ?_, ?_, ?_, ?_, ?_⟩
  · unfold mainRun
    cases hd : discoveredOffsets elf_data with
    | error e => exact Or.inl ⟨e, rfl⟩
    | ok l =>
      dsimp only
      by_cases hl : l = []
      · rw [if_pos hl]
        exact Or.inr (Or.inl rfl)
      · rw [if_neg hl]
        cases hp : patch_pe pe (build_base_reloc_table l) with
        | error m => exact Or.inl ⟨m, rfl⟩
        | ok out =>
          exact Or.inr (Or.inr ⟨build_base_reloc_table l, out,
            build_base_reloc_table_ne_nil hl, hp, rfl⟩)
  · intro hbad
    refine ⟨"not a 64-bit little-endian ELF file", ?_⟩
    unfold mainRun discoveredOffsets
    rw [if_neg hbad]
  · intro hok hmach
    refine ⟨"unsupported e_machine", ?_⟩
    unfold mainRun discoveredOffsets
    rw [if_pos hok]
    dsimp only
    unfold read_elf_reloc_offsets
    rw [if_neg hmach]
  · intro hd
    unfold mainRun
    rw [hd]
    dsimp only
    rw [if_pos rfl]
  · intro l hd hl hsigbad
    unfold mainRun
    rw [hd]
    dsimp only
    rw [if_neg hl]
    unfold patch_pe
    rw [if_neg hsigbad]
    exact ⟨_, rfl⟩
  · intro l hd hl hsig hmagicbad
    unfold mainRun
    rw [hd]
    dsimp only
    rw [if_neg hl]
    unfold patch_pe
    rw [if_pos hsig, if_neg hmagicbad]
    exact ⟨_, rfl⟩
  · intro l s0 rest hd hl hsig hmagic hnone hps hnoroom
    unfold mainRun
    rw [hd]
    dsimp only
    rw [if_neg hl]
    unfold patch_pe
    rw [if_pos hsig, if_pos hmagic, hnone]
    dsimp only
    unfold patchAppendNewSection
    rw [hps]
    dsimp only
    rw [if_pos (by omega)]
    exact ⟨_, rfl⟩

/-! ## Witnesses: the claim theorems applied at concrete inputs -/

theorem C1_witness :
    (decodeReloc (build_base_reloc_table [12289, 12293, 16386])).Perm
      ([12289, 12293, 16386].map fun r => (pageOf r, pageOff r)) ∧
    (decodeReloc (build_base_reloc_table [12289, 12293, 16386])).Nodup :=
  C1_build_table_roundtrip [12289, 12293, 16386] (by decide) (by decide)

theorem C7_witness :
    (relocBlockBytes [5, 9] 0).length % 4 = 0 ∧
    (relocBlockBytes [5, 9] 0).length =
      8 + 2 * (decodeEntries (relocBlockEntryData [5, 9] 0)).length ∧
    (decodeEntries (relocBlockEntryData [5, 9] 0)).countP
      (fun w => w / 4096 = IMAGE_REL_BASED_ABSOLUTE) ≤ 1 :=
  C7_block_length [5, 9] (by decide) 0 (by decide)

theorem C8_witness :
    (relocPages [5]).Sorted (· < ·) ∧
    (((decodeEntries (relocBlockEntryData [5] 0)).filter
        (fun w => w / 4096 ≠ IMAGE_REL_BASED_ABSOLUTE)).map
      (fun w => w % 4096)).Sorted (· < ·) :=
  ⟨(C8_sorted [5] (by decide)).1, (C8_sorted [5] (by decide)).2 0 (by decide)⟩

theorem C10_witness :
    ∃ k, k < dataSecW.size / 8 ∧ 4096 = dataSecW.addr + 8 * k :=
  (C10_scan_words elfScanP sectionsScanW dataSecW (by decide)).1 4096 (by decide)

theorem C5_witness : scan_data_for_pointers elfScanW sectionsScanW = [] := by
  refine C5_rodata_only_patterns_scan_empty elfScanW sectionsScanW dataSecW
    rodataSecW 4096 8200 (by decide) (by decide) (by decide) ?_ (by decide)
  intro j hj hlo hhi
  exfalso
  have hg : ∀ t, elfScanW.getD t 0 = 0 := fun t => getD_replicate_zero 16 t
  have h0 : u64le elfScanW j = 0 := by
    unfold u64le u32le
    simp only [hg]
  omega

theorem C6_witness :
    ∃ l, read_elf_reloc_offsets elfRelaW sectionsRelaW = Except.ok l ∧
      0x1234 ∈ l := by
  obtain ⟨l, hl, hiff⟩ := C6_rela_records elfRelaW sectionsRelaW (by decide) (by decide)
  refine ⟨l, hl, ?_⟩
  exact (hiff 0x1234).2 ⟨(".rela.data", relaDataSecW), by decide, by decide,
    Or.inl rfl, 0, by decide, by decide, by decide⟩

theorem C2_witness :
    patch_pe peR tblR = Except.ok (patchReplaceSection peR tblR secR) ∧
    readBytes (patchReplaceSection peR tblR secR) secR.raw_offset tblR.length =
      tblR ∧
    (patchReplaceSection peR tblR secR).getD (secR.raw_offset + 12) 0 = 0 ∧
    u32le (patchReplaceSection peR tblR secR) (secR.header_off + 8) =
      tblR.length ∧
    u32le (patchReplaceSection peR tblR secR) (secR.header_off + 16) =
      secR.raw_size := by
  obtain ⟨h1, h2, h3, h4, h5⟩ := C2_replace_path peR tblR secR (by decide)
    (by decide) (by decide) (by decide) (by decide) (by decide) (by decide)
    (by decide) (by decide)
  exact ⟨h1, h2, h3 12 (by decide) (by decide), h4, h5⟩

theorem C9_witness :
    patch_pe peR tblR = Except.ok (patchReplaceSection peR tblR secR) ∧
    (patchReplaceSection peR tblR secR).length = peR.length ∧
    u16le (patchReplaceSection peR tblR secR) (coffOff peR + 2) =
      peNumSections peR ∧
    readBytes (patchReplaceSection peR tblR secR) secR.header_off 8 =
      readBytes peR secR.header_off 8 ∧
    u32le (patchReplaceSection peR tblR secR) (secR.header_off + 12) =
      secR.virtual_address ∧
    u32le (patchReplaceSection peR tblR secR) (secR.header_off + 16) =
      secR.raw_size ∧
    u32le (patchReplaceSection peR tblR secR) (secR.header_off + 20) =
      secR.raw_offset ∧
    (patchReplaceSection peR tblR secR).getD 0 0 = peR.getD 0 0 := by
  obtain ⟨h1, h2, h3, h4, h5, h6, h7, h8, h9⟩ := C9_replace_frame peR tblR secR
    (by decide) (by decide) (by decide) (by decide) (by decide) (by decide)
    (by decide) (by decide) (by decide)
  exact ⟨h1, h2, h3, h5, h6, h7, h8,
    h9 0 (by decide) (by decide) (by decide) (by decide)⟩

theorem C4_witness :
    (∃ m, mainRun elfBad peR = Except.error m) ∧
    mainRun elfEmpty peR = Except.ok peR := by
  refine ⟨(C4_all_or_nothing elfBad peR).2.1 (by decide), ?_⟩
  exact (C4_all_or_nothing elfEmpty peR).2.2.2.1 rfl
